import Mathlib

/-!
Shallow embedding of the hospital-staff-allocation backend
(`backend/app`): the in-memory store (`data/database.py`), the constraint
rule engine and conflict detector (`agents/constraint_agent.py`), the
allocation orchestrator (`services/allocation_service.py`,
`agents/allocation_agent.py`) and the shift/availability lifecycle
methods of the store.

Modelling conventions:
* Python floats are modelled as `ℚ` (exact real arithmetic).
* Python strings are Lean `String`s; the string operations the code uses
  (`in`, `lower`, `replace`, `split`, `<`) are re-implemented over the
  code-point list `String.data`, matching Python semantics (a Python
  `str` is a sequence of code points; all data in this app is ASCII).
* `datetime.strptime(_, "%Y-%m-%d")` is modelled by `parseDate`, which
  yields the proleptic-Gregorian day number (days since 1970-01-01,
  civil-calendar algorithm); `datetime` comparison and subtraction on
  midnight datetimes coincide with comparison/subtraction of these day
  numbers, and Python's `date.weekday()` (Monday = 0) is
  `(days + 3) mod 7`.
* `datetime.now()` is passed in explicitly: operations that read the
  clock take the current time (and its `isoformat()` string) as an
  argument; `uuid4`-generated fresh ids are likewise passed in as
  arguments, except timeline-entry ids which are drawn from a counter
  stored in the store (`uuidCounter`).
* Python exceptions raised inside a rule check are modelled with
  `Except String`; the error payload stands for `str(e)`.
-/

namespace Hospital

/-- Python's `sub in hay` substring test (`in` on `str`). -/
def pyIn (sub hay : String) : Bool := decide (sub.data <:+: hay.data)

/-- Python's `str.lower()` (ASCII data in this app). -/
def lowerStr (s : String) : String := ⟨s.data.map Char.toLower⟩

/-- Fuel-driven worker for `pyReplace` (fuel = length of the remaining
text, which bounds the number of recursion steps). -/
def replaceFuel (pat rep : List Char) : Nat → List Char → List Char
  | _, [] => []
  | 0, l => l
  | Nat.succ fuel, c :: rest =>
    if pat ≠ [] && pat.isPrefixOf (c :: rest) then
      rep ++ replaceFuel pat rep fuel (List.drop (pat.length - 1) rest)
    else c :: replaceFuel pat rep fuel rest

/-- Python's `s.replace(pat, rep)`: replace every (left-to-right,
non-overlapping) occurrence.  The only pattern used by the code is the
non-empty `"_certified"`. -/
def pyReplace (s pat rep : String) : String :=
  ⟨replaceFuel pat.data rep.data s.data.length s.data⟩

/-- Lexicographic comparison of code-point lists. -/
def charListLt : List Char → List Char → Bool
  | [], [] => false
  | [], _ :: _ => true
  | _ :: _, [] => false
  | a :: as, b :: bs => if a < b then true else if b < a then false else charListLt as bs

/-- Python's `<` on strings: lexicographic code-point comparison. -/
def pyStrLt (a b : String) : Bool := charListLt a.data b.data

/-- Split a code-point list on a separator character (Python
`s.split(sep)` for a one-character separator, as used with `":"`). -/
def splitOnCharL (sep : Char) (l : List Char) : List (List Char) :=
  l.foldr
    (fun c acc =>
      match acc with
      | [] => [[c]]
      | g :: gs => if c = sep then [] :: g :: gs else (c :: g) :: gs)
    [[]]

/-- Numeric value of a non-empty all-digit character group (the only
shape `strptime`'s `%Y`/`%m`/`%d` fields and `int()` accept here). -/
def digitsVal? (l : List Char) : Option Nat :=
  if l ≠ [] ∧ l.all Char.isDigit then
    some (l.foldl (fun n c => n * 10 + (c.toNat - 48)) 0)
  else none

def isLeapYear (y : Nat) : Bool := y % 4 == 0 && (y % 100 != 0 || y % 400 == 0)

def daysInMonth (y m : Nat) : Nat :=
  if m = 2 then (if isLeapYear y then 29 else 28)
  else if m = 4 ∨ m = 6 ∨ m = 9 ∨ m = 11 then 30 else 31

/-- Civil-calendar day number (days since 1970-01-01) of a valid
proleptic-Gregorian date with `1 ≤ y`. -/
def daysFromCivil (y m d : Nat) : Int :=
  let yy := if m ≤ 2 then y - 1 else y
  let era := yy / 400
  let yoe := yy % 400
  let mp := if 2 < m then m - 3 else m + 9
  let doy := (153 * mp + 2) / 5 + d - 1
  let doe := yoe * 365 + yoe / 4 - yoe / 100 + doy
  (era * 146097 + doe : Int) - 719468

/-- `datetime.strptime(s, "%Y-%m-%d")`, returning the day number of the
parsed (midnight) datetime; `none` models the `ValueError` raised on a
malformed date. -/
def parseDate (s : String) : Option Int :=
  match splitOnCharL '-' s.data with
  | [ys, ms, ds] =>
    match digitsVal? ys, digitsVal? ms, digitsVal? ds with
    | some y, some m, some d =>
      if 1 ≤ y ∧ y ≤ 9999 ∧ 1 ≤ m ∧ m ≤ 12 ∧ 1 ≤ d ∧ d ≤ daysInMonth y m then
        some (daysFromCivil y m d)
      else none
    | _, _, _ => none
  | _ => none

/-- `map(int, s.split(':'))` followed by `time(h, m)`: hour/minute pair,
`none` models the `ValueError` on a malformed or out-of-range time. -/
def parseHM (s : String) : Option (Nat × Nat) :=
  match splitOnCharL ':' s.data with
  | [hs, ms] =>
    match digitsVal? hs, digitsVal? ms with
    | some h, some m => if h ≤ 23 ∧ m ≤ 59 then some (h, m) else none
    | _, _ => none
  | _ => none

/-- A point in time: civil day number plus seconds since midnight
(`ℚ`, so fractional seconds of `datetime.now()` are representable). -/
structure Instant where
  days : Int
  secOfDay : ℚ
deriving DecidableEq

/-- Python `datetime` comparison `a < b` (lexicographic). -/
def instantLt (a b : Instant) : Bool :=
  decide (a.days < b.days) || (decide (a.days = b.days) && decide (a.secOfDay < b.secOfDay))

/-- The ambient clock for one store operation: the `datetime.now()`
value and its `isoformat()` rendering. -/
structure Clock where
  inst : Instant
  iso : String
deriving DecidableEq

/-! ## Data model (`app/models`)

Enumerations whose members are only ever used through their string
`.value` (staff role, department, shift type, priority) are modelled
directly as `String`; enumerations the code also matches on as members
(`ShiftStatus`, `AllocationStatus`, `AvailabilityStatus`) are inductive
types whose constructors carry the member values. -/

/-- `ShiftStatus` (`models/shift.py`): members `SCHEDULED`,
`IN_PROGRESS`, `COMPLETED`, `ARCHIVED`. -/
inductive ShiftStatus where
  | scheduled
  | inProgress
  | completed
  | archived
deriving DecidableEq

/-- Python enum member access `ShiftStatus.<attr>`: `some` member if a
member with that *name* exists, `none` for the `AttributeError` raised
otherwise.  (Member names are upper-case; the member *values* are the
lower-case strings, and value strings are not attribute names.) -/
def shiftStatusAttr (attr : String) : Option ShiftStatus :=
  if attr = "SCHEDULED" then some .scheduled
  else if attr = "IN_PROGRESS" then some .inProgress
  else if attr = "COMPLETED" then some .completed
  else if attr = "ARCHIVED" then some .archived
  else none

/-- `AllocationStatus` (`models/allocation.py`). -/
inductive AllocationStatus where
  | pending
  | confirmed
  | rejected
  | completed
deriving DecidableEq

/-- `AvailabilityStatus` (`models/staff_availability.py`). -/
inductive AvailabilityStatus where
  | available
  | working
  | onBreak
  | unavailable
deriving DecidableEq

/-- The `.value` string of an availability status (used when the status
is interpolated into a timeline `reason` string). -/
def availValue : AvailabilityStatus → String
  | .available => "available"
  | .working => "working"
  | .onBreak => "on_break"
  | .unavailable => "unavailable"

/-- `StaffMember` (`models/staff.py`); `role` and `department` hold the
enum member's `.value` string. -/
structure StaffMember where
  id : String
  name : String
  role : String
  department : String
  skill_level : Nat
  max_hours_per_week : Nat
  preferred_shifts : List String
  unavailable_dates : List String
  certification_level : String
  experience_years : Nat
  hourly_rate : ℚ
deriving DecidableEq

/-- `Shift` (`models/shift.py`); `required_staff` is the dict
role → headcount in insertion order. -/
structure Shift where
  id : String
  date : String
  shift_type : String
  department : String
  start_time : String
  end_time : String
  required_staff : List (String × Nat)
  minimum_skill_level : Nat
  priority : String
  special_requirements : List String
  max_capacity : Nat
  status : ShiftStatus
  actual_start_time : Option String
  actual_end_time : Option String
  is_extended : Bool
  completion_notes : Option String
deriving DecidableEq

/-- `AllocationRecord` (`models/allocation.py`). -/
structure AllocationRecord where
  id : String
  staff_id : String
  shift_id : String
  status : AllocationStatus
  assigned_at : Option String
  confidence_score : ℚ
  reasoning : String
  constraints_met : List String
  potential_issues : List String
  checked_in_at : Option String
  checked_out_at : Option String
  is_present : Bool
  overtime_hours : ℚ
deriving DecidableEq

/-- `StaffAvailability` (`models/staff_availability.py`). -/
structure StaffAvailability where
  id : String
  staff_id : String
  status : AvailabilityStatus
  current_shift_id : Option String
  available_from : Option String
  last_updated : String
  location : Option String
  notes : Option String
deriving DecidableEq

/-- `AvailabilityTimeline` (`models/staff_availability.py`). -/
structure TimelineEntry where
  id : String
  staff_id : String
  status : AvailabilityStatus
  changed_at : String
  changed_by : Option String
  reason : Option String
  shift_id : Option String
deriving DecidableEq

/-- The in-memory `Database` (`data/database.py`): the three entity
lists, the availability records and append-only timeline, plus a
counter standing for the `uuid4` source of fresh timeline-entry ids. -/
structure Store where
  staff : List StaffMember
  shifts : List Shift
  allocations : List AllocationRecord
  staff_availability : List StaffAvailability
  availability_timeline : List TimelineEntry
  uuidCounter : Nat
deriving DecidableEq

/-! ## Store lookups (`data/database.py`) -/

/-- `get_staff_by_id`: first staff member with the given id. -/
def getStaffById (s : Store) (staffId : String) : Option StaffMember :=
  s.staff.find? (fun st => st.id == staffId)

/-- `get_shift_by_id`: first shift with the given id. -/
def getShiftById (s : Store) (shiftId : String) : Option Shift :=
  s.shifts.find? (fun sh => sh.id == shiftId)

/-- `get_allocation_by_id`: first allocation with the given id. -/
def getAllocationById (s : Store) (allocId : String) : Option AllocationRecord :=
  s.allocations.find? (fun al => al.id == allocId)

/-- `get_allocations_by_staff`. -/
def getAllocationsByStaff (s : Store) (staffId : String) : List AllocationRecord :=
  s.allocations.filter (fun al => al.staff_id == staffId)

/-- `get_allocations_by_shift`. -/
def getAllocationsByShift (s : Store) (shiftId : String) : List AllocationRecord :=
  s.allocations.filter (fun al => al.shift_id == shiftId)

/-- `get_staff_availability`: first availability record for the staff id. -/
def getStaffAvailability (s : Store) (staffId : String) : Option StaffAvailability :=
  s.staff_availability.find? (fun av => av.staff_id == staffId)

/-! ## Constraint rule engine (`agents/constraint_agent.py`)

Each `_check_*` method returns `{violated, message, details}`; only the
`violated` flag and `message` feed the aggregation, so a check is
modelled as a `RuleRes`.  Checks that parse dates can raise
(`ValueError` from `strptime`), hence return `Except String RuleRes`. -/

/-- Outcome of one constraint check: the `violated` flag and `message`. -/
structure RuleRes where
  violated : Bool
  message : String
deriving DecidableEq

/-- The `ValueError` text of a failed `strptime` on a date string. -/
def dateError (s : String) : String :=
  "time data " ++ s ++ " does not match format %Y-%m-%d"

/-- Loop body of `_check_weekly_hours`: add 8 hours for every allocation
of the staff member whose (existing) shift lies in
`[weekStart, weekStart + 7)`; a malformed shift date raises. -/
def weeklyLoop (s : Store) (weekStart : Int) : Nat → List AllocationRecord → Except String Nat
  | hours, [] => .ok hours
  | hours, al :: rest =>
    match getShiftById s al.shift_id with
    | none => weeklyLoop s weekStart hours rest
    | some sh =>
      match parseDate sh.date with
      | none => .error (dateError sh.date)
      | some d =>
        weeklyLoop s weekStart
          (if weekStart ≤ d ∧ d < weekStart + 7 then hours + 8 else hours) rest

/-- `_check_weekly_hours`' tally: hours already allocated to the staff
member in the shift's Monday-start week, plus the candidate shift's
fixed 8 hours. -/
def weeklyHoursOf (s : Store) (staff : StaffMember) (shift : Shift) : Except String Nat :=
  match parseDate shift.date with
  | none => .error (dateError shift.date)
  | some shiftDays =>
    match weeklyLoop s (shiftDays - (shiftDays + 3) % 7) 0 (getAllocationsByStaff s staff.id) with
    | .error e => .error e
    | .ok base => .ok (base + 8)

/-- `_check_weekly_hours`. -/
def checkWeeklyHours (s : Store) (staff : StaffMember) (shift : Shift) :
    Except String RuleRes := do
  let total ← weeklyHoursOf s staff shift
  let violated := decide (staff.max_hours_per_week < total)
  pure ⟨violated,
    if violated then
      "Weekly hours (" ++ toString total ++ ") exceed maximum (" ++
        toString staff.max_hours_per_week ++ ")"
    else "Weekly hours within limit"⟩

/-- `_check_skill_level`. -/
def checkSkillLevel (staff : StaffMember) (shift : Shift) : RuleRes :=
  let violated := decide (staff.skill_level < shift.minimum_skill_level)
  ⟨violated,
    if violated then
      "Staff skill level (" ++ toString staff.skill_level ++ ") below required (" ++
        toString shift.minimum_skill_level ++ ")"
    else "Skill level requirement met"⟩

/-- `_check_department_match`. -/
def checkDepartmentMatch (staff : StaffMember) (shift : Shift) : RuleRes :=
  let violated := staff.department != shift.department
  ⟨violated,
    if violated then
      "Department mismatch: staff (" ++ staff.department ++ ") vs shift (" ++
        shift.department ++ ")"
    else "Department match"⟩

/-- `_check_availability`. -/
def checkAvailability (staff : StaffMember) (shift : Shift) : RuleRes :=
  let violated := staff.unavailable_dates.contains shift.date
  ⟨violated,
    if violated then "Staff unavailable on " ++ shift.date else "Staff available"⟩

/-- Loop body of `_check_rest_period`: first other allocation of the
staff member whose (existing) shift is on the same calendar date; the
loop returns as soon as one is found, so dates after it are not parsed. -/
def restLoop (s : Store) (allocId : String) (currentDays : Int) :
    List AllocationRecord → Except String (Option String)
  | [] => .ok none
  | al :: rest =>
    if al.id == allocId then restLoop s allocId currentDays rest
    else
      match getShiftById s al.shift_id with
      | none => restLoop s allocId currentDays rest
      | some osh =>
        match parseDate osh.date with
        | none => .error (dateError osh.date)
        | some od =>
          if currentDays = od then .ok (some osh.id)
          else restLoop s allocId currentDays rest

/-- `_check_rest_period`. -/
def checkRestPeriod (s : Store) (a : AllocationRecord) (staff : StaffMember) (shift : Shift) :
    Except String RuleRes := do
  match parseDate shift.date with
  | none => .error (dateError shift.date)
  | some currentDays =>
    let conflict ← restLoop s a.id currentDays (getAllocationsByStaff s staff.id)
    match conflict with
    | some _ =>
      pure ⟨true, "Insufficient rest period - multiple shifts on " ++ shift.date⟩
    | none => pure ⟨false, "Adequate rest period"⟩

/-- `_check_certifications`: the requirement tags whose lower-cased form
contains `"certified"` and whose `"_certified"`-stripped form (original
casing, every occurrence removed) does not occur in the lower-cased
certification level. -/
def missingCerts (staff : StaffMember) (shift : Shift) : List String :=
  shift.special_requirements.filter (fun req =>
    pyIn "certified" (lowerStr req) &&
      !(pyIn (pyReplace req "_certified" "") (lowerStr staff.certification_level)))

/-- `_check_certifications`. -/
def checkCertifications (staff : StaffMember) (shift : Shift) : RuleRes :=
  let missing := missingCerts staff shift
  ⟨!missing.isEmpty,
    if !missing.isEmpty then
      "Missing certifications: " ++ String.intercalate ", " missing
    else "Certification requirements met"⟩

/-- `_check_shift_capacity`'s tally: every allocation referencing the
shift, regardless of status. -/
def allocCount (s : Store) (shiftId : String) : Nat :=
  (getAllocationsByShift s shiftId).length

/-- `_check_shift_capacity`. -/
def checkShiftCapacity (s : Store) (shift : Shift) : RuleRes :=
  let current := allocCount s shift.id
  let violated := decide (shift.max_capacity ≤ current)
  ⟨violated,
    if violated then
      "Shift at capacity (" ++ toString current ++ "/" ++ toString shift.max_capacity ++ ")"
    else "Capacity available"⟩

/-- `role_counts[role] = role_counts.get(role, 0) + 1` on a dict
modelled as an insertion-ordered association list. -/
def bumpRole (m : List (String × Nat)) (k : String) : List (String × Nat) :=
  if m.any (fun p => p.1 == k) then
    m.map (fun p => if p.1 == k then (p.1, p.2 + 1) else p)
  else m ++ [(k, 1)]

/-- `role_counts.get(role, 0)`. -/
def roleGet (m : List (String × Nat)) (k : String) : Nat :=
  ((m.find? (fun p => p.1 == k)).map (fun p => p.2)).getD 0

/-- Role tally of `_check_role_requirements`: every allocation of the
shift (any status) whose staff member exists, by role, plus the
candidate's own role. -/
def roleCountsFor (s : Store) (staff : StaffMember) (shift : Shift) : List (String × Nat) :=
  let counts0 := (getAllocationsByShift s shift.id).foldl
    (fun m al =>
      match getStaffById s al.staff_id with
      | some st => bumpRole m st.role
      | none => m)
    []
  bumpRole counts0 staff.role

/-- `_check_role_requirements`. -/
def checkRoleRequirements (s : Store) (staff : StaffMember) (shift : Shift) : RuleRes :=
  let counts := roleCountsFor s staff shift
  let unmet := (shift.required_staff.filter (fun rc => roleGet counts rc.1 < rc.2)).map
    (fun rc => rc.1 ++ ": " ++ toString (roleGet counts rc.1) ++ "/" ++ toString rc.2)
  ⟨!unmet.isEmpty,
    if !unmet.isEmpty then
      "Unmet role requirements: " ++ String.intercalate ", " unmet
    else "Role requirements satisfied"⟩

/-! ## Validation aggregation (`ConstraintAgent.validate_allocation`) -/

/-- Result of `validate_allocation`.  `constraint_details` is the
insertion-ordered dict rule-name ↦ (severity, outcome), holding exactly
the rules whose check did not raise.  The advisory LLM analysis is not
modelled: it runs after this result is fully built and only appends to
`suggestions`, never touching `is_valid`, `violations`, `warnings`,
`severity_score` or `constraint_details`. -/
structure ValidationResult where
  is_valid : Bool
  violations : List String
  warnings : List String
  suggestions : List String
  severity_score : ℚ
  constraint_details : List (String × String × RuleRes)
deriving DecidableEq

/-- The rule registry `constraint_rules` evaluated at one candidate:
`(name, severity, outcome)` in insertion order.  Checks that cannot
raise are wrapped in `.ok`. -/
def ruleOutcomes (s : Store) (a : AllocationRecord) (staff : StaffMember) (shift : Shift) :
    List (String × String × Except String RuleRes) :=
  [("max_weekly_hours", "critical", checkWeeklyHours s staff shift),
   ("skill_level_requirement", "critical", .ok (checkSkillLevel staff shift)),
   ("department_match", "medium", .ok (checkDepartmentMatch staff shift)),
   ("availability_check", "critical", .ok (checkAvailability staff shift)),
   ("minimum_rest_period", "high", checkRestPeriod s a staff shift),
   ("certification_requirements", "critical", .ok (checkCertifications staff shift)),
   ("shift_capacity", "critical", .ok (checkShiftCapacity s shift)),
   ("role_requirements", "high", .ok (checkRoleRequirements s staff shift))]

/-- Does this registry entry count as a critical violation? -/
def isCriticalViolation (e : String × String × Except String RuleRes) : Bool :=
  match e.2.2 with
  | .ok r => r.violated && e.2.1 == "critical"
  | .error _ => false

/-- `validate_allocation`: per-rule evaluation with per-rule fault
isolation (a raising check degrades to an `Error checking …` warning),
then aggregation: `is_valid ↔ no critical violation`,
`severity_score = critical_violations / 8`. -/
def validateAllocation (s : Store) (a : AllocationRecord) : ValidationResult :=
  match getStaffById s a.staff_id, getShiftById s a.shift_id with
  | some staff, some shift =>
    let tbl := ruleOutcomes s a staff shift
    let violations := tbl.filterMap (fun e =>
      match e.2.2 with
      | .ok r => if r.violated && e.2.1 == "critical" then some r.message else none
      | .error _ => none)
    let warnings := tbl.filterMap (fun e =>
      match e.2.2 with
      | .ok r => if r.violated && e.2.1 == "high" then some r.message else none
      | .error msg => some ("Error checking " ++ e.1 ++ ": " ++ msg))
    let suggestions := tbl.filterMap (fun e =>
      match e.2.2 with
      | .ok r =>
        if r.violated && e.2.1 != "critical" && e.2.1 != "high" then some r.message else none
      | .error _ => none)
    let details := tbl.filterMap (fun e =>
      match e.2.2 with
      | .ok r => some (e.1, e.2.1, r)
      | .error _ => none)
    let crit := (tbl.filter isCriticalViolation).length
    ⟨crit == 0, violations, warnings, suggestions, (crit : ℚ) / 8, details⟩
  | _, _ => ⟨false, ["Staff or shift not found"], [], [], 1, []⟩

/-- `AllocationService.validate_allocation(allocation_id)`: look the
stored allocation up and re-validate it; `none` models the
`{"error": "Allocation not found"}` result. -/
def validateAllocationById (s : Store) (allocId : String) : Option ValidationResult :=
  (getAllocationById s allocId).map (validateAllocation s)

/-! ## Allocation orchestrator (`services/allocation_service.py`,
`agents/allocation_agent.py`) -/

/-- The fresh `pending` record `create_allocation` builds before
validating (`constraints_met` and `potential_issues` start empty). -/
def manualCandidate (newId staffId shiftId : String) (conf : ℚ) (reasoning : String) :
    AllocationRecord :=
  ⟨newId, staffId, shiftId, .pending, none, conf, reasoning, [], [], none, none, false, 0⟩

/-- `AllocationService.create_allocation`: `none`/store-unchanged when
staff or shift is missing; otherwise validate the fresh pending record,
copy the evaluated rule names and the violations+warnings onto it,
auto-confirm (with `assigned_at = now`) exactly when `is_valid`, and
append it to the store. -/
def createAllocation (now newId : String) (s : Store) (staffId shiftId : String)
    (conf : ℚ) (reasoning : String) : Option AllocationRecord × Store :=
  match getStaffById s staffId, getShiftById s shiftId with
  | some _, some _ =>
    let a0 := manualCandidate newId staffId shiftId conf reasoning
    let v := validateAllocation s a0
    let a1 := { a0 with
      constraints_met := v.constraint_details.map (fun e => e.1)
      potential_issues := v.violations ++ v.warnings
      status := if v.is_valid then .confirmed else .pending
      assigned_at := if v.is_valid then some now else none }
    (some a1, { s with allocations := s.allocations ++ [a1] })
  | _, _ => (none, s)

/-- One staff pairing proposed by the LLM for one shift
(`recommendation["staff_allocations"]` entry), together with the
`uuid4` id the agent will stamp on the materialized record. -/
structure AgentRec where
  allocId : String
  staff_id : String
  shift_id : String
  confidence : ℚ
  reasoning : String
  issues : List String
deriving DecidableEq

/-- The `pending` records `AllocationAgent.allocate_staff_to_shifts`
materializes for one shift id from the proposals targeting it
(`constraints_met = ["ai_analysis"]`). -/
def materialize (recs : List AgentRec) (shiftId : String) : List AllocationRecord :=
  (recs.filter (fun r => r.shift_id == shiftId)).map (fun r =>
    ⟨r.allocId, r.staff_id, shiftId, .pending, none, r.confidence, r.reasoning,
      ["ai_analysis"], r.issues, none, none, false, 0⟩)

/-- `AllocationAgent.allocate_staff_to_shifts`: walk the requested shift
ids, skip unknown shifts, and store every materialized record in the
database as it is created; returns the created batch and the updated
store.  The LLM proposals are data inputs (`recs`). -/
def agentAllocate (s : Store) (shiftIds : List String) (recs : List AgentRec) :
    List AllocationRecord × Store :=
  match shiftIds with
  | [] => ([], s)
  | sid :: rest =>
    match getShiftById s sid with
    | none => agentAllocate s rest recs
    | some _ =>
      let fresh := materialize recs sid
      let s1 := { s with allocations := s.allocations ++ fresh }
      let p := agentAllocate s1 rest recs
      (fresh ++ p.1, p.2)

/-- `AllocationService.auto_allocate_shifts`, store effect only: after
the agent has materialized and stored the whole batch, every batch
record is validated against that store and its status is set to
`confirmed` (stamping `assigned_at`) when valid, else `rejected`.  The
per-id validation lookup and the in-place mutation of the stored
objects are rendered by id; they agree with the source when the batch
ids are `uuid4`-fresh and pairwise distinct, which the theorems assume. -/
def autoAllocateStore (now : String) (s : Store) (shiftIds : List String)
    (recs : List AgentRec) : Store :=
  let p := agentAllocate s shiftIds recs
  let batch := p.1
  let s1 := p.2
  { s1 with allocations := s1.allocations.map (fun al =>
      match batch.find? (fun b => b.id == al.id) with
      | some b =>
        if (validateAllocation s1 b).is_valid then
          { al with status := .confirmed, assigned_at := some now }
        else { al with status := .rejected }
      | none => al) }

/-- One allocation-creating operation of the service layer. -/
inductive AllocOp where
  | manual (now newId staffId shiftId : String) (conf : ℚ) (reasoning : String)
  | auto (now : String) (shiftIds : List String) (recs : List AgentRec)

/-- Store effect of one operation. -/
def applyOp (s : Store) : AllocOp → Store
  | .manual now newId staffId shiftId conf reasoning =>
    (createAllocation now newId s staffId shiftId conf reasoning).2
  | .auto now shiftIds recs => autoAllocateStore now s shiftIds recs

/-- Store effect of a sequence of operations. -/
def applyOps (s : Store) : List AllocOp → Store
  | [] => s
  | op :: rest => applyOps (applyOp s op) rest

/-- Ids of the stored allocations. -/
def allocIds (s : Store) : List String := s.allocations.map (fun al => al.id)

/-- Freshness of the `uuid4` ids drawn by one operation: an auto-allocate
batch carries pairwise-distinct ids not present in the store.  (A manual
create needs no such condition.) -/
def opFresh (s : Store) : AllocOp → Prop
  | .manual _ _ _ _ _ _ => True
  | .auto _ shiftIds recs =>
    let batch := (agentAllocate s shiftIds recs).1
    (batch.map (fun b => b.id)).Nodup ∧ ∀ i ∈ batch.map (fun b => b.id), i ∉ allocIds s

/-- Freshness along a whole operation sequence. -/
def opsFresh : Store → List AllocOp → Prop
  | _, [] => True
  | s, op :: rest => opFresh s op ∧ opsFresh (applyOp s op) rest

/-- Confirmed allocations currently referencing a shift id. -/
def confirmedCount (s : Store) (shiftId : String) : Nat :=
  (s.allocations.filter (fun al =>
    al.shift_id == shiftId && decide (al.status = .confirmed))).length

/-- The capacity invariant: no shift's confirmed-allocation count
exceeds its `max_capacity`. -/
def CapacityInv (s : Store) : Prop :=
  ∀ sh ∈ s.shifts, confirmedCount s sh.id ≤ sh.max_capacity

/-- Shift ids are pairwise distinct (they are `uuid4`-generated). -/
def uniqueShiftIds (s : Store) : Prop := (s.shifts.map (fun sh => sh.id)).Nodup

/-! ## Allocation status update (`Database.update_allocation_status`) -/

/-- In-place mutation of the first allocation with a given id (the
object `get_allocation_by_id` returned). -/
def replaceFirstAlloc : List AllocationRecord → String → AllocationRecord →
    List AllocationRecord
  | [], _, _ => []
  | b :: t, i, a' => if b.id == i then a' :: t else b :: replaceFirstAlloc t i a'

/-- `update_allocation_status`: set the status unconditionally, stamp
`assigned_at = now` exactly when the new status is `"confirmed"`, return
the mutated record; unknown id → `None`, store untouched.  (The service
passes `status.value`; a string equal to an `AllocationStatus` value is
indistinguishable from the member, so the argument is the member.) -/
def updateAllocationStatus (now : String) (s : Store) (allocId : String)
    (status : AllocationStatus) : Option AllocationRecord × Store :=
  match getAllocationById s allocId with
  | none => (none, s)
  | some a =>
    let a' := { a with
      status := status
      assigned_at := if status = .confirmed then some now else a.assigned_at }
    (some a', { s with allocations := replaceFirstAlloc s.allocations allocId a' })

/-! ## Staff availability updates -/

/-- In-place mutation of the first availability record with a given
staff id. -/
def replaceFirstAvail : List StaffAvailability → String → StaffAvailability →
    List StaffAvailability
  | [], _, _ => []
  | b :: t, i, a' => if b.staff_id == i then a' :: t else b :: replaceFirstAvail t i a'

/-- `update_staff_availability`: append one timeline entry (with a fresh
`timeline_<uuid>` id, drawn here from the store's counter), then mutate
the availability record; optional fields are only written when the
argument `is not None`.  Unknown staff id → `None`, store untouched. -/
def updateStaffAvailability (clock : Clock) (s : Store) (staffId : String)
    (status : AvailabilityStatus) (currentShiftId availableFrom location notes : Option String)
    (changedBy : String) : Option StaffAvailability × Store :=
  match getStaffAvailability s staffId with
  | none => (none, s)
  | some av =>
    let entry : TimelineEntry :=
      ⟨"timeline_" ++ toString s.uuidCounter, staffId, status, clock.iso, some changedBy,
        some ("Status changed from " ++ availValue av.status ++ " to " ++ availValue status),
        currentShiftId⟩
    let av1 := { av with status := status, last_updated := clock.iso }
    let av2 := if currentShiftId.isSome then { av1 with current_shift_id := currentShiftId } else av1
    let av3 := if availableFrom.isSome then { av2 with available_from := availableFrom } else av2
    let av4 := if location.isSome then { av3 with location := location } else av3
    let av5 := if notes.isSome then { av4 with notes := notes } else av4
    (some av5,
      { s with
        staff_availability := replaceFirstAvail s.staff_availability staffId av5
        availability_timeline := s.availability_timeline ++ [entry]
        uuidCounter := s.uuidCounter + 1 })

/-- `_mark_staff_working`: flag every confirmed allocation's staff
member as working this shift.  The allocation list is snapshotted at
entry (availability updates do not touch it). -/
def markStaffWorking (clock : Clock) (s : Store) (shiftId : String) : Store :=
  (getAllocationsByShift s shiftId).foldl
    (fun st al =>
      if al.status = .confirmed then
        (updateStaffAvailability clock st al.staff_id .working (some shiftId) none none
          (some ("Working shift " ++ shiftId)) "system").2
      else st)
    s

/-- `_release_staff_from_shift`: release every confirmed allocation's
staff member back to available (note the source passes
`current_shift_id=None`, so the link is *not* cleared). -/
def releaseStaffFromShift (clock : Clock) (s : Store) (shiftId : String) : Store :=
  (getAllocationsByShift s shiftId).foldl
    (fun st al =>
      if al.status = .confirmed then
        (updateStaffAvailability clock st al.staff_id .available none (some clock.iso) none
          (some ("Released from completed shift " ++ shiftId)) "system").2
      else st)
    s

/-! ## Shift status update and lifecycle (`Database`) -/

/-- In-place mutation of the first shift with a given id. -/
def replaceFirstShift : List Shift → String → Shift → List Shift
  | [], _, _ => []
  | b :: t, i, a' => if b.id == i then a' :: t else b :: replaceFirstShift t i a'

/-- Python truthiness of an optional-string argument (`if x:`): present
and non-empty. -/
def truthy : Option String → Bool
  | some str => str ≠ ""
  | none => false

/-- Field updates of `update_shift_status` on the shift object: status
always; actual times/notes only when the argument is truthy;
`is_extended` recomputed (string comparison of the new actual end
against the scheduled end) only when both are truthy. -/
def setShiftFields (sh : Shift) (status : ShiftStatus) (ast aet notes : Option String) : Shift :=
  let sh1 := { sh with status := status }
  let sh2 := if truthy ast then { sh1 with actual_start_time := ast } else sh1
  let sh3 := if truthy aet then { sh2 with actual_end_time := aet } else sh2
  let sh4 := if truthy notes then { sh3 with completion_notes := notes } else sh3
  if truthy aet && sh.end_time ≠ "" then
    { sh4 with is_extended := pyStrLt sh.end_time (aet.getD "") }
  else sh4

/-- `update_shift_status`: mutate the first shift with the id, then on
`COMPLETED` release its staff, on `IN_PROGRESS` mark them working;
unknown id → `None`, store untouched. -/
def updateShiftStatus (clock : Clock) (s : Store) (shiftId : String) (status : ShiftStatus)
    (ast aet notes : Option String) : Option Shift × Store :=
  match getShiftById s shiftId with
  | none => (none, s)
  | some sh =>
    let sh' := setShiftFields sh status ast aet notes
    let s1 := { s with shifts := replaceFirstShift s.shifts shiftId sh' }
    let s2 :=
      if status = .completed then releaseStaffFromShift clock s1 shiftId
      else if status = .inProgress then markStaffWorking clock s1 shiftId
      else s1
    (some sh', s2)

/-- Dict write `results[shift_id] = v` (insertion-ordered, overwriting). -/
def dictInsert (m : List (String × Bool)) (k : String) (v : Bool) : List (String × Bool) :=
  if m.any (fun p => p.1 == k) then
    m.map (fun p => if p.1 == k then (p.1, v) else p)
  else m ++ [(k, v)]

/-- `bulk_complete_shifts`: for each id, evaluate `ShiftStatus.completed`
— an enum-member *attribute* access; no member is named `completed`
(the member is `COMPLETED`), so it raises `AttributeError`, the per-item
`except` records `False`, and `update_shift_status` is never reached. -/
def bulkCompleteShifts (clock : Clock) (s : Store) (shiftIds : List String) :
    List (String × Bool) × Store :=
  shiftIds.foldl
    (fun acc sid =>
      match shiftStatusAttr "completed" with
      | none => (dictInsert acc.1 sid false, acc.2)
      | some st =>
        let p := updateShiftStatus clock acc.2 sid st none (some clock.iso)
          (some "Bulk completion")
        (dictInsert acc.1 sid p.1.isSome, p.2))
    ([], s)

/-! ## Auto-completion sweep (`Database._release_completed_shifts`) -/

/-- Guard of the sweep for one shift object: in progress, date and end
time parse (else the `except` skips it), and the current time is past
the shift's scheduled end. -/
def sweepGuard (clock : Clock) (sh : Shift) : Bool :=
  decide (sh.status = .inProgress) &&
    match parseDate sh.date, parseHM sh.end_time with
    | some d, some hm => instantLt ⟨d, (((hm.1 * 60 + hm.2) * 60 : Nat) : ℚ)⟩ clock.inst
    | _, _ => false

/-- One iteration of the sweep's `for shift in self.shifts` loop: read
the (possibly already mutated) shift at this position and auto-complete
it when the guard holds. -/
def sweepStep (clock : Clock) (s : Store) (i : Nat) : Store :=
  match s.shifts[i]? with
  | none => s
  | some sh =>
    if sweepGuard clock sh then
      (updateShiftStatus clock s sh.id .completed none (some clock.iso)
        (some "Shift automatically completed")).2
    else s

/-- The sweep over a list of positions. -/
def sweepAux (clock : Clock) (s : Store) : List Nat → Store
  | [] => s
  | i :: rest => sweepAux clock (sweepStep clock s i) rest

/-- `_release_completed_shifts`: run the loop over every position of the
shift list (mutations never add or remove shifts, so the iteration space
is the positions of the list at entry). -/
def releaseCompletedShifts (clock : Clock) (s : Store) : Store :=
  sweepAux clock s (List.range s.shifts.length)

/-! ## Cross-allocation conflict detector
(`ConstraintAgent._check_global_conflicts`) -/

/-- Entry of the per-staff `staff_shifts` lists. -/
structure BookedShift where
  allocation_id : String
  shift_id : String
  date : String
  start_time : String
  end_time : String
deriving DecidableEq

/-- One pass of the grouping loop: ensure the staff key exists, then
append the shift info when the shift resolves. -/
def pushBooked (m : List (String × List BookedShift)) (k : String) (e : Option BookedShift) :
    List (String × List BookedShift) :=
  let m1 := if m.any (fun p => p.1 == k) then m else m ++ [(k, [])]
  match e with
  | none => m1
  | some b => m1.map (fun p => if p.1 == k then (p.1, p.2 ++ [b]) else p)

/-- The `staff_shifts` dict: allocations grouped by staff id in first-
appearance order, dropping allocations whose shift does not resolve. -/
def staffShiftsDict (s : Store) (allocs : List AllocationRecord) :
    List (String × List BookedShift) :=
  allocs.foldl
    (fun m al =>
      pushBooked m al.staff_id ((getShiftById s al.shift_id).map (fun sh =>
        ⟨al.id, sh.id, sh.date, sh.start_time, sh.end_time⟩)))
    []

/-- A `double_booking` conflict record. -/
structure Conflict where
  type : String
  staff_id : String
  conflicting_allocations : List String
  message : String
deriving DecidableEq

/-- The nested `for i … for j in shifts[i+1:]` pair scan for one staff
member: one conflict per ordered pair of same-date entries. -/
def pairConflicts (staffId : String) : List BookedShift → List Conflict
  | [] => []
  | b :: t =>
    (t.filter (fun b2 => b2.date == b.date)).map (fun b2 =>
      ⟨"double_booking", staffId, [b.allocation_id, b2.allocation_id],
        "Staff " ++ staffId ++ " double-booked on " ++ b.date⟩) ++
      pairConflicts staffId t

/-- `_check_global_conflicts`. -/
def checkGlobalConflicts (s : Store) (allocs : List AllocationRecord) : List Conflict :=
  (staffShiftsDict s allocs).foldl (fun acc p => acc ++ pairConflicts p.1 p.2) []

/-! ## Scoring engine (`AllocationService._calculate_suitability_score`,
`AllocationAgent.calculate_allocation_score`) -/

/-- `_calculate_suitability_score`: weighted factor sum, capped at 1. -/
def suitabilityScore (staff : StaffMember) (shift : Shift) : ℚ :=
  let score : ℚ := 0
  let score :=
    if shift.minimum_skill_level ≤ staff.skill_level then
      score + min ((staff.skill_level : ℚ) / 10) 1 * 0.3
    else score
  let score := if staff.department == shift.department then score + 0.25 else score
  let score := if staff.preferred_shifts.contains shift.shift_type then score + 0.20 else score
  let score := score + min ((staff.experience_years : ℚ) / 15) 1 * 0.15
  let score := if !staff.unavailable_dates.contains shift.date then score + 0.10 else score
  min score 1

/-- The `score` computed by the agent tool `calculate_allocation_score`
for an existing staff/shift pair (the same five factors, without the
final cap; the tool's JSON additionally rounds it to 2 decimals for
display). -/
def allocationScore (staff : StaffMember) (shift : Shift) : ℚ :=
  let score : ℚ := 0
  let score :=
    if shift.minimum_skill_level ≤ staff.skill_level then
      score + min ((staff.skill_level : ℚ) / 10) 1 * 0.3
    else score
  let score := if staff.department == shift.department then score + 0.25 else score
  let score := if staff.preferred_shifts.contains shift.shift_type then score + 0.20 else score
  let score := score + min ((staff.experience_years : ℚ) / 15) 1 * 0.15
  if !staff.unavailable_dates.contains shift.date then score + 0.10 else score

/-! ## Spec-side reference predicates (for refinement comparison only;
these follow the claim's words, not the source) -/

/-- The role-requirements tally as the claim words it: confirmed
allocations only. -/
def roleRequirementsSpecViolated (s : Store) (staff : StaffMember) (shift : Shift) : Bool :=
  let counts0 := (getAllocationsByShift s shift.id).foldl
    (fun m al =>
      if al.status = .confirmed then
        match getStaffById s al.staff_id with
        | some st => bumpRole m st.role
        | none => m
      else m)
    []
  let counts := bumpRole counts0 staff.role
  shift.required_staff.any (fun rc => roleGet counts rc.1 < rc.2)

/-- Strip a literal `"_certified"` suffix, as the claim words it. -/
def stripCertSuffix (req : String) : String :=
  if "_certified".data.isSuffixOf req.data then
    ⟨req.data.take (req.data.length - "_certified".data.length)⟩
  else req

/-- The certifications check as the claim words it: tags whose lowered
form contains `"certified"`, suffix-stripped, occurrence tested
case-insensitively. -/
def certificationsSpecViolated (staff : StaffMember) (shift : Shift) : Bool :=
  shift.special_requirements.any (fun req =>
    pyIn "certified" (lowerStr req) &&
      !(pyIn (lowerStr (stripCertSuffix req)) (lowerStr staff.certification_level)))

/-! ## Concrete fixtures for counterexamples and witnesses -/

def wStaff : StaffMember :=
  ⟨"staff1", "Nora", "nurse", "general", 5, 40, ["morning"], [], "basic", 3, 20⟩

def wDoctor : StaffMember :=
  ⟨"staff2", "Dan", "doctor", "general", 7, 40, [], [], "basic", 5, 30⟩

/-- A scheduled morning shift on 2024-07-15 with the given id/capacity
and no special requirements. -/
def wShift (i : String) (cap : Nat) : Shift :=
  ⟨i, "2024-07-15", "morning", "general", "08:00", "16:00", [], 1, "medium", [], cap,
    .scheduled, none, none, false, none⟩

def emptyStore : Store := ⟨[], [], [], [], [], 0⟩

def wAlloc : AllocationRecord :=
  ⟨"alloc1", "staff1", "shiftA", .pending, none, 1, "m", [], [], none, none, false, 0⟩

/-- C9 fixture: one stored allocation on a capacity-1 shift. -/
def w9 : Store := ⟨[wStaff], [wShift "shiftA" 1], [wAlloc], [], [], 0⟩

/-- C1 fixture: empty shift with room. -/
def w1 : Store := ⟨[wStaff], [wShift "shiftA" 5], [], [], [], 0⟩

/-- C4 fixture: the capacity-5 shift requires one nurse and carries one
*rejected* nurse allocation. -/
def w4shift : Shift := { wShift "shiftA" 5 with required_staff := [("nurse", 1)] }

def w4alloc : AllocationRecord := { wAlloc with status := .rejected }

def w4 : Store := ⟨[wStaff, wDoctor], [w4shift], [w4alloc], [], [], 0⟩

/-- C5 fixture: a mixed-case requirement tag against a matching
certification level. -/
def w5staff : StaffMember := { wStaff with certification_level := "Trauma" }

def w5shift : Shift := { wShift "shiftA" 5 with special_requirements := ["Trauma_certified"] }

/-- C3 fixtures: three same-date shifts, three allocations of one staff. -/
def w3 : Store := ⟨[wStaff], [wShift "shA" 5, wShift "shB" 5, wShift "shC" 5], [], [], [], 0⟩

def w3a : AllocationRecord := { wAlloc with id := "al1", shift_id := "shA" }
def w3b : AllocationRecord := { wAlloc with id := "al2", shift_id := "shB" }
def w3c : AllocationRecord := { wAlloc with id := "al3", shift_id := "shC" }

/-- C8 fixture: a completed shift and an in-progress one, distinct ids. -/
def w8 : Store :=
  ⟨[wStaff],
    [{ wShift "sh1" 5 with status := .completed }, { wShift "sh2" 5 with status := .inProgress }],
    [], [], [], 0⟩

def wClock : Clock := ⟨⟨20000, 0⟩, "2024-10-04T12:00:00"⟩

/-- C10 fixture. -/
def w10 : Store := ⟨[], [], [wAlloc], [], [], 0⟩

/-- C1 witness fixture: a capacity-1 shift already holding one confirmed
allocation. -/
def wAllocConfirmed : AllocationRecord := { wAlloc with id := "alloc2", status := .confirmed }

def wFull : Store := ⟨[wStaff], [wShift "shiftA" 1], [wAllocConfirmed], [], [], 0⟩

/-- Position `j` of the store holds no shift the auto-completion sweep
would still complete (its guard is false, or the position is empty). -/
def sweptAt (clock : Clock) (s : Store) (j : Nat) : Prop :=
  ∀ sh, s.shifts[j]? = some sh → sweepGuard clock sh = false

/-- The record `create_allocation` persists and returns when both
references resolve: the validated candidate carrying the evaluated rule
names and the violations+warnings, auto-confirmed exactly when valid. -/
def manualBuilt (now newId : String) (s : Store) (staffId shiftId : String)
    (conf : ℚ) (reasoning : String) : AllocationRecord :=
  { manualCandidate newId staffId shiftId conf reasoning with
    constraints_met :=
      ((validateAllocation s (manualCandidate newId staffId shiftId conf reasoning)
        ).constraint_details.map (fun e => e.1))
    potential_issues :=
      (validateAllocation s (manualCandidate newId staffId shiftId conf reasoning)).violations ++
      (validateAllocation s (manualCandidate newId staffId shiftId conf reasoning)).warnings
    status :=
      if (validateAllocation s (manualCandidate newId staffId shiftId conf reasoning)).is_valid
      then .confirmed else .pending
    assigned_at :=
      if (validateAllocation s (manualCandidate newId staffId shiftId conf reasoning)).is_valid
      then some now else none }

/-- All-statuses role tally used to phrase the amended role rule: the
shift's allocations whose staff member exists and has the given role. -/
def roleTally (s : Store) (shiftId role : String) : Nat :=
  ((getAllocationsByShift s shiftId).filter (fun al =>
    match getStaffById s al.staff_id with
    | some st => st.role == role
    | none => false)).length

/-! # Theorems -/

/-- A successful `find?` splits the list at the first hit. -/
theorem find?_split {α : Type} (p : α → Bool) :
    ∀ {l : List α} {a : α}, l.find? p = some a →
      ∃ l1 l2, l = l1 ++ a :: l2 ∧ ∀ b ∈ l1, p b = false := by
  intro l
  induction l with
  | nil => intro a h; simp at h
  | cons x t ih =>
    intro a h
    cases hx : p x with
    | true =>
      simp only [List.find?_cons, hx] at h
      obtain rfl : x = a := by simpa using h
      exact ⟨[], t, rfl, by simp⟩
    | false =>
      simp only [List.find?_cons, hx] at h
      obtain ⟨l1, l2, hsplit, hfail⟩ := ih h
      exact ⟨x :: l1, l2, by simp [hsplit], by
        intro b hb
        rcases List.mem_cons.mp hb with rfl | hb
        · exact hx
        · exact hfail b hb⟩

/-- In a list whose keys are pairwise distinct, `find?` by the key of a
member returns that member. -/
theorem find?_of_nodup_keys {α : Type} (f : α → String) :
    ∀ {l : List α}, (l.map f).Nodup → ∀ {b : α}, b ∈ l →
      l.find? (fun x => f x == f b) = some b := by
  intro l
  induction l with
  | nil => intro _ b hb; simp at hb
  | cons a t ih =>
    intro hnd b hb
    simp only [List.map_cons, List.nodup_cons] at hnd
    rcases List.mem_cons.mp hb with rfl | hb
    · simp [List.find?_cons]
    · have hne : (f a == f b) = false := by
        refine beq_eq_false_iff_ne.mpr ?_
        intro he
        exact hnd.1 (he ▸ List.mem_map_of_mem f hb)
      simp only [List.find?_cons, hne]
      exact ih hnd.2 hb

/-- C7: the bulk-completion operation never completes anything: for every
store and every list of shift ids it leaves the store untouched and
reports `False` for every id, because the `ShiftStatus.completed`
attribute access raises `AttributeError` (the member is `COMPLETED`)
and the per-item handler records a failure. -/
theorem bulk_complete_shifts_all_fail (clock : Clock) (s : Store) (shiftIds : List String) :
    bulkCompleteShifts clock s shiftIds =
      (shiftIds.foldl (fun m sid => dictInsert m sid false) [], s) := by
  have key : ∀ (ids : List String) (m : List (String × Bool)),
      ids.foldl
        (fun acc sid =>
          match shiftStatusAttr "completed" with
          | none => (dictInsert acc.1 sid false, acc.2)
          | some st =>
            let p := updateShiftStatus clock acc.2 sid st none (some clock.iso)
              (some "Bulk completion")
            (dictInsert acc.1 sid p.1.isSome, p.2))
        (m, s) =
      (ids.foldl (fun acc sid => dictInsert acc sid false) m, s) := by
    intro ids
    induction ids with
    | nil => intro m; rfl
    | cons sid rest ih => intro m; simpa [shiftStatusAttr] using ih (dictInsert m sid false)
  simpa [bulkCompleteShifts] using key shiftIds []

/-- Replacing the first id-match in a split list. -/
theorem replaceFirstAlloc_split (i : String) (a a' : AllocationRecord) :
    ∀ (l1 l2 : List AllocationRecord), (∀ b ∈ l1, (b.id == i) = false) → (a.id == i) = true →
      replaceFirstAlloc (l1 ++ a :: l2) i a' = l1 ++ a' :: l2 := by
  intro l1
  induction l1 with
  | nil => intro l2 _ ha; simp [replaceFirstAlloc, ha]
  | cons x t ih =>
    intro l2 hfail ha
    have hx := hfail x (by simp)
    simp only [List.cons_append, replaceFirstAlloc, hx]
    simp [ih l2 (fun b hb => hfail b (by simp [hb])) ha]

/-- C10: `update_allocation_status` performs no validation: for an
existing allocation id it sets exactly the requested status on the first
matching record, stamps `assigned_at` with the current time precisely
when the new status is `confirmed`, leaves every other field and every
other part of the store unchanged, and for an unknown id returns `None`
with the store unchanged. -/
theorem update_allocation_status_frame (now : String) (s : Store) (allocId : String)
    (status : AllocationStatus) :
    (getAllocationById s allocId = none →
      updateAllocationStatus now s allocId status = (none, s)) ∧
    (∀ a, getAllocationById s allocId = some a →
      ∃ a' s', updateAllocationStatus now s allocId status = (some a', s') ∧
        a'.status = status ∧
        (status = .confirmed → a'.assigned_at = some now) ∧
        (status ≠ .confirmed → a'.assigned_at = a.assigned_at) ∧
        a'.id = a.id ∧ a'.staff_id = a.staff_id ∧ a'.shift_id = a.shift_id ∧
        a'.confidence_score = a.confidence_score ∧ a'.reasoning = a.reasoning ∧
        a'.constraints_met = a.constraints_met ∧ a'.potential_issues = a.potential_issues ∧
        a'.checked_in_at = a.checked_in_at ∧ a'.checked_out_at = a.checked_out_at ∧
        a'.is_present = a.is_present ∧ a'.overtime_hours = a.overtime_hours ∧
        s'.staff = s.staff ∧ s'.shifts = s.shifts ∧
        s'.staff_availability = s.staff_availability ∧
        s'.availability_timeline = s.availability_timeline ∧
        s'.uuidCounter = s.uuidCounter ∧
        (∃ l1 l2, s.allocations = l1 ++ a :: l2 ∧ s'.allocations = l1 ++ a' :: l2 ∧
          ∀ b ∈ l1, b.id ≠ allocId)) := by
  constructor
  · intro h
    simp [updateAllocationStatus, h]
  · intro a ha
    simp only [updateAllocationStatus, ha]
    refine ⟨_, _, rfl, rfl, ?_, ?_, rfl, rfl, rfl, rfl, rfl,
      rfl, rfl, rfl, rfl, rfl, rfl, rfl, rfl, rfl, rfl, rfl, ?_⟩
    · intro hc; simp [hc]
    · intro hc; simp [hc]
    · obtain ⟨l1, l2, hsplit, hfail⟩ := find?_split _ ha
      have hid : (a.id == allocId) = true := by
        simpa using List.find?_some ha
      refine ⟨l1, l2, hsplit, ?_, ?_⟩
      · simpa [hsplit] using replaceFirstAlloc_split allocId a _ l1 l2 hfail hid
      · intro b hb
        simpa using hfail b hb

/-- C10 witness: concrete instantiation on the one-allocation store. -/
theorem update_allocation_status_frame_witness :
    ∃ a' s', updateAllocationStatus "T1" w10 "alloc1" .confirmed = (some a', s') ∧
      a'.status = .confirmed ∧ (AllocationStatus.confirmed = .confirmed → a'.assigned_at = some "T1") := by
  obtain ⟨a', s', h1, h2, h3, -⟩ :=
    (update_allocation_status_frame "T1" w10 "alloc1" .confirmed).2 wAlloc (by rfl)
  exact ⟨a', s', h1, h2, h3⟩

/-- Unfolding `roleGet` one entry at a time. -/
theorem roleGet_cons (p : String × Nat) (t : List (String × Nat)) (k : String) :
    roleGet (p :: t) k = if p.1 == k then p.2 else roleGet t k := by
  by_cases h : (p.1 == k) = true <;> simp [roleGet, List.find?_cons, h]

/-- `roleGet` after the in-place `+1` map, read at a different key. -/
theorem roleGet_map_ne (k k' : String) (h : k' ≠ k) :
    ∀ t : List (String × Nat),
      roleGet (t.map (fun p => if p.1 == k then (p.1, p.2 + 1) else p)) k' = roleGet t k' := by
  intro t
  induction t with
  | nil => rfl
  | cons p t ih =>
    have hfst : (if p.1 == k then (p.1, p.2 + 1) else p).1 = p.1 := by
      by_cases hc : (p.1 == k) = true <;> simp [hc]
    rw [List.map_cons, roleGet_cons, roleGet_cons, hfst]
    by_cases hp' : (p.1 == k') = true
    · have hpk : (p.1 == k) = false :=
        beq_eq_false_iff_ne.mpr fun he => h ((beq_iff_eq.mp hp').symm.trans he)
      rw [if_pos hp', if_pos hp', if_neg (by simp [hpk])]
    · rw [if_neg (by simp [hp']), if_neg (by simp [hp'])]
      exact ih

/-- `roleGet` after the in-place `+1` map, read at the bumped key, when
the key occurs. -/
theorem roleGet_map_self (k : String) :
    ∀ t : List (String × Nat), t.any (fun p => p.1 == k) = true →
      roleGet (t.map (fun p => if p.1 == k then (p.1, p.2 + 1) else p)) k = roleGet t k + 1 := by
  intro t
  induction t with
  | nil => intro h; simp at h
  | cons p t ih =>
    intro hany
    have hfst : (if p.1 == k then (p.1, p.2 + 1) else p).1 = p.1 := by
      by_cases hc : (p.1 == k) = true <;> simp [hc]
    rw [List.map_cons, roleGet_cons, roleGet_cons, hfst]
    by_cases hpk : (p.1 == k) = true
    · rw [if_pos hpk, if_pos hpk, if_pos hpk]
    · have hany' : t.any (fun p => p.1 == k) = true := by
        simpa [List.any_cons, (by simpa using hpk : (p.1 == k) = false)] using hany
      rw [if_neg hpk, if_neg hpk]
      exact ih hany'

/-- `roleGet` after appending the fresh `(k, 1)` entry, when the key was
absent. -/
theorem roleGet_append_single (k k' : String) :
    ∀ m : List (String × Nat), m.any (fun p => p.1 == k) = false →
      roleGet (m ++ [(k, 1)]) k' = roleGet m k' + (if k' = k then 1 else 0) := by
  intro m
  induction m with
  | nil =>
    intro _
    by_cases hk : k' = k
    · have hb : (k == k') = true := beq_iff_eq.mpr hk.symm
      simp [roleGet_cons, roleGet, hb, hk]
    · have hb : (k == k') = false := beq_eq_false_iff_ne.mpr fun he => hk he.symm
      simp [roleGet_cons, roleGet, hb, hk]
  | cons p t ih =>
    intro hany
    have hpk : (p.1 == k) = false := by
      by_contra hc
      simp only [Bool.not_eq_false] at hc
      simp [List.any_cons, hc] at hany
    have hany' : t.any (fun p => p.1 == k) = false := by
      simpa [List.any_cons, hpk] using hany
    rw [List.cons_append, roleGet_cons, roleGet_cons]
    by_cases hp' : (p.1 == k') = true
    · have hk : ¬ k' = k := by
        intro he
        have hpv : p.1 = k' := beq_iff_eq.mp hp'
        rw [he] at hpv
        exact absurd (beq_iff_eq.mpr hpv) (by simp [hpk])
      rw [if_pos hp', if_pos hp', if_neg hk]
      omega
    · rw [if_neg hp', if_neg hp']
      exact ih hany'

/-- The dict update `role_counts[k] = role_counts.get(k, 0) + 1` adds one
to the reading at `k` and leaves other readings unchanged. -/
theorem roleGet_bump (m : List (String × Nat)) (k k' : String) :
    roleGet (bumpRole m k) k' = roleGet m k' + (if k' = k then 1 else 0) := by
  by_cases hany : m.any (fun p => p.1 == k) = true
  · by_cases hk : k' = k
    · subst hk
      simp only [bumpRole, hany, if_true, if_pos rfl]
      exact roleGet_map_self k' m hany
    · simp only [bumpRole, hany, if_true, if_neg hk, Nat.add_zero]
      exact roleGet_map_ne k k' hk m
  · simp only [Bool.not_eq_true] at hany
    simp only [bumpRole, hany, Bool.false_eq_true, if_false]
    exact roleGet_append_single k k' m hany

/-- Reading the role tally that `_check_role_requirements` builds: the
all-statuses count of that role, plus one for the candidate. -/
theorem roleCounts_get (s : Store) (staff : StaffMember) (shift : Shift) (k : String) :
    roleGet (roleCountsFor s staff shift) k =
      roleTally s shift.id k + (if staff.role = k then 1 else 0) := by
  have fold : ∀ (l : List AllocationRecord) (m : List (String × Nat)),
      roleGet (l.foldl (fun m al =>
          match getStaffById s al.staff_id with
          | some st => bumpRole m st.role
          | none => m) m) k
        = roleGet m k + (l.filter (fun al =>
            match getStaffById s al.staff_id with
            | some st => st.role == k
            | none => false)).length := by
    intro l
    induction l with
    | nil => intro m; simp
    | cons al t ih =>
      intro m
      cases hst : getStaffById s al.staff_id with
      | none =>
        simp only [List.foldl_cons, List.filter_cons, hst]
        rw [ih]
        simp
      | some st =>
        simp only [List.foldl_cons, List.filter_cons, hst]
        rw [ih, roleGet_bump]
        by_cases hr : st.role = k
        · have hb : (st.role == k) = true := beq_iff_eq.mpr hr
          rw [if_pos hr.symm]
          simp only [hb, if_true, List.length_cons]
          omega
        · have hb : (st.role == k) = false := beq_eq_false_iff_ne.mpr hr
          rw [if_neg (fun he => hr he.symm)]
          simp only [hb, Bool.false_eq_true, if_false]
          omega
  have base : roleGet ([] : List (String × Nat)) k = 0 := rfl
  unfold roleCountsFor roleTally
  rw [roleGet_bump, fold, base]
  by_cases hr : staff.role = k
  · rw [if_pos hr.symm, if_pos hr]
    omega
  · rw [if_neg (fun he => hr he.symm), if_neg hr]
    omega

/-- C4 counterexample: a shift requiring one nurse whose only allocation
is a *rejected* nurse allocation, validated for a doctor candidate.  The
code's tally counts the rejected allocation, so the rule passes; the
claim's confirmed-only tally would report a violation. -/
theorem role_requirements_status_counterexample :
    (checkRoleRequirements w4 wDoctor w4shift).violated = false ∧
      roleRequirementsSpecViolated w4 wDoctor w4shift = true := by
  constructor <;> decide

/-- C4 amended: the role rule tallies *all* of the shift's allocations
(any status, not only confirmed ones) whose staff member exists, by
role, adds the candidate's own role, and reports violated exactly when
some role listed in `required_staff` has a tally strictly below its
required headcount. -/
theorem role_requirements_amended (s : Store) (staff : StaffMember) (shift : Shift) :
    (checkRoleRequirements s staff shift).violated = true ↔
      ∃ rc ∈ shift.required_staff,
        roleTally s shift.id rc.1 + (if staff.role = rc.1 then 1 else 0) < rc.2 := by
  have hv : (checkRoleRequirements s staff shift).violated
      = !((shift.required_staff.filter
          (fun rc => roleGet (roleCountsFor s staff shift) rc.1 < rc.2)).map
          (fun rc => rc.1 ++ ": " ++ toString (roleGet (roleCountsFor s staff shift) rc.1) ++
            "/" ++ toString rc.2)).isEmpty := rfl
  rw [hv]
  constructor
  · intro h
    have hne : shift.required_staff.filter
        (fun rc => roleGet (roleCountsFor s staff shift) rc.1 < rc.2) ≠ [] := by
      intro hnil
      rw [hnil] at h
      simp at h
    obtain ⟨rc, hrc⟩ := List.exists_mem_of_ne_nil _ hne
    refine ⟨rc, (List.mem_filter.mp hrc).1, ?_⟩
    have hq := (List.mem_filter.mp hrc).2
    rw [decide_eq_true_eq, roleCounts_get] at hq
    exact hq
  · rintro ⟨rc, hmem, hlt⟩
    have hq : decide (roleGet (roleCountsFor s staff shift) rc.1 < rc.2) = true := by
      rw [decide_eq_true_eq, roleCounts_get]
      exact hlt
    have hmf : rc ∈ shift.required_staff.filter
        (fun rc => roleGet (roleCountsFor s staff shift) rc.1 < rc.2) :=
      List.mem_filter.mpr ⟨hmem, hq⟩
    have hne := List.ne_nil_of_mem hmf
    have hnem : ((shift.required_staff.filter
        (fun rc => roleGet (roleCountsFor s staff shift) rc.1 < rc.2)).map
        (fun rc => rc.1 ++ ": " ++ toString (roleGet (roleCountsFor s staff shift) rc.1) ++
          "/" ++ toString rc.2)) ≠ [] := by
      simpa using hne
    cases hcase : ((shift.required_staff.filter
        (fun rc => roleGet (roleCountsFor s staff shift) rc.1 < rc.2)).map
        (fun rc => rc.1 ++ ": " ++ toString (roleGet (roleCountsFor s staff shift) rc.1) ++
          "/" ++ toString rc.2)) with
    | nil => exact absurd hcase hnem
    | cons x xs => simp [hcase]

/-- C5 counterexample: requirement tag `"Trauma_certified"` against
certification level `"Trauma"`.  The code strips `"_certified"` without
lower-casing the residual, then looks for `"Trauma"` inside the
lower-cased `"trauma"` — not found, so the rule reports violated; the
claim's case-insensitive reading says the tag is satisfied. -/
theorem certifications_case_counterexample :
    (checkCertifications w5staff w5shift).violated = true ∧
      certificationsSpecViolated w5staff w5shift = false := by
  constructor <;> decide

/-- C5 amended: the rule considers the tags whose lower-cased form
contains `"certified"`, removes every occurrence of the exact,
case-sensitive substring `"_certified"` from the tag (keeping the tag's
original casing), and reports violated exactly when for some such tag
the resulting string does not occur as an exact substring of the
lower-cased `staff.certification_level`. -/
theorem certifications_amended (staff : StaffMember) (shift : Shift) :
    (checkCertifications staff shift).violated = true ↔
      ∃ req ∈ shift.special_requirements,
        "certified".data <:+: (lowerStr req).data ∧
          ¬ (pyReplace req "_certified" "").data <:+: (lowerStr staff.certification_level).data := by
  have hv : (checkCertifications staff shift).violated = !(missingCerts staff shift).isEmpty := rfl
  rw [hv]
  constructor
  · intro h
    have hne : missingCerts staff shift ≠ [] := by
      intro hnil
      rw [hnil] at h
      simp at h
    obtain ⟨req, hreq⟩ := List.exists_mem_of_ne_nil _ hne
    have hm := List.mem_filter.mp hreq
    refine ⟨req, hm.1, ?_, ?_⟩
    · have hp := hm.2
      rw [Bool.and_eq_true] at hp
      have h1b : pyIn "certified" (lowerStr req) = true := hp.1
      unfold pyIn at h1b
      exact of_decide_eq_true h1b
    · have hp := hm.2
      rw [Bool.and_eq_true] at hp
      have hfalse : pyIn (pyReplace req "_certified" "") (lowerStr staff.certification_level)
          = false := by
        have := hp.2
        rwa [Bool.not_eq_true'] at this
      unfold pyIn at hfalse
      exact of_decide_eq_false hfalse
  · rintro ⟨req, hmem, h1, h2⟩
    have hpred : (pyIn "certified" (lowerStr req) &&
        !(pyIn (pyReplace req "_certified" "") (lowerStr staff.certification_level))) = true := by
      rw [Bool.and_eq_true]
      unfold pyIn
      constructor
      · exact decide_eq_true h1
      · rw [Bool.not_eq_true']
        exact decide_eq_false h2
    have hmf : req ∈ missingCerts staff shift := List.mem_filter.mpr ⟨hmem, hpred⟩
    have hne := List.ne_nil_of_mem hmf
    cases hcase : missingCerts staff shift with
    | nil => exact absurd hcase hne
    | cons x xs => simp [hcase]

/-- C3: the conflict detector reports one `double_booking` conflict per
unordered pair of one staff member's allocations whose (existing) shifts
share a date: two same-date allocations yield exactly one conflict
naming both allocation ids, and three yield exactly the three pairwise
conflicts — never a single deduplicated conflict per staff/date. -/
theorem conflicts_pairwise (s : Store) (sid d : String) (a1 a2 a3 : AllocationRecord)
    (sh1 sh2 sh3 : Shift)
    (hs1 : a1.staff_id = sid) (hs2 : a2.staff_id = sid) (hs3 : a3.staff_id = sid)
    (hl1 : getShiftById s a1.shift_id = some sh1)
    (hl2 : getShiftById s a2.shift_id = some sh2)
    (hl3 : getShiftById s a3.shift_id = some sh3)
    (hd1 : sh1.date = d) (hd2 : sh2.date = d) (hd3 : sh3.date = d) :
    checkGlobalConflicts s [a1, a2] =
      [⟨"double_booking", sid, [a1.id, a2.id], "Staff " ++ sid ++ " double-booked on " ++ d⟩] ∧
    checkGlobalConflicts s [a1, a2, a3] =
      [⟨"double_booking", sid, [a1.id, a2.id], "Staff " ++ sid ++ " double-booked on " ++ d⟩,
       ⟨"double_booking", sid, [a1.id, a3.id], "Staff " ++ sid ++ " double-booked on " ++ d⟩,
       ⟨"double_booking", sid, [a2.id, a3.id], "Staff " ++ sid ++ " double-booked on " ++ d⟩] := by
  constructor <;>
    simp [checkGlobalConflicts, staffShiftsDict, pushBooked, pairConflicts,
      hl1, hl2, hl3, hs1, hs2, hs3, hd1, hd2, hd3]

/-- C3 witness: two and three same-date allocations of one staff member
on the concrete three-shift store. -/
theorem conflicts_pairwise_witness :
    checkGlobalConflicts w3 [w3a, w3b] =
      [⟨"double_booking", "staff1", ["al1", "al2"],
        "Staff " ++ "staff1" ++ " double-booked on " ++ "2024-07-15"⟩] ∧
    checkGlobalConflicts w3 [w3a, w3b, w3c] =
      [⟨"double_booking", "staff1", ["al1", "al2"],
        "Staff " ++ "staff1" ++ " double-booked on " ++ "2024-07-15"⟩,
       ⟨"double_booking", "staff1", ["al1", "al3"],
        "Staff " ++ "staff1" ++ " double-booked on " ++ "2024-07-15"⟩,
       ⟨"double_booking", "staff1", ["al2", "al3"],
        "Staff " ++ "staff1" ++ " double-booked on " ++ "2024-07-15"⟩] :=
  conflicts_pairwise w3 "staff1" "2024-07-15" w3a w3b w3c
    (wShift "shA" 5) (wShift "shB" 5) (wShift "shC" 5)
    rfl rfl rfl rfl rfl rfl rfl rfl rfl

/-- The agent score as a flat weighted sum. -/
theorem allocationScore_eq (staff : StaffMember) (shift : Shift) :
    allocationScore staff shift =
      (if shift.minimum_skill_level ≤ staff.skill_level then
        min ((staff.skill_level : ℚ) / 10) 1 * 0.3 else 0) +
      (if staff.department == shift.department then (0.25 : ℚ) else 0) +
      (if staff.preferred_shifts.contains shift.shift_type then (0.20 : ℚ) else 0) +
      min ((staff.experience_years : ℚ) / 15) 1 * 0.15 +
      (if !staff.unavailable_dates.contains shift.date then (0.10 : ℚ) else 0) := by
  simp only [allocationScore]
  split_ifs <;> ring

/-- The service score is the agent score capped at 1. -/
theorem suitabilityScore_eq_min (staff : StaffMember) (shift : Shift) :
    suitabilityScore staff shift = min (allocationScore staff shift) 1 := rfl

/-- Bounds of a flat `if`-guarded contribution. -/
theorem ite_weight_bounds {c : Prop} [Decidable c] (w : ℚ) (hw : 0 ≤ w) :
    0 ≤ (if c then w else 0) ∧ (if c then w else 0) ≤ w := by
  split_ifs <;> constructor <;> linarith

/-- Bounds of an `if`-guarded scaled contribution with factor in `[0,1]`. -/
theorem ite_scaled_bounds {c : Prop} [Decidable c] (m w : ℚ) (h0 : 0 ≤ m) (h1 : m ≤ 1)
    (hw : 0 ≤ w) :
    0 ≤ (if c then m * w else 0) ∧ (if c then m * w else 0) ≤ w := by
  split_ifs with hc
  · constructor
    · positivity
    · nlinarith
  · exact ⟨le_rfl, hw⟩

/-- Bounds for the uncapped score. -/
theorem allocationScore_bounds (staff : StaffMember) (shift : Shift) :
    0 ≤ allocationScore staff shift ∧ allocationScore staff shift ≤ 1 := by
  rw [allocationScore_eq]
  have h1 : 0 ≤ min ((staff.skill_level : ℚ) / 10) 1 := le_min (by positivity) (by norm_num)
  have h2 : min ((staff.skill_level : ℚ) / 10) 1 ≤ 1 := min_le_right _ _
  have h3 : 0 ≤ min ((staff.experience_years : ℚ) / 15) 1 := le_min (by positivity) (by norm_num)
  have h4 : min ((staff.experience_years : ℚ) / 15) 1 ≤ 1 := min_le_right _ _
  obtain ⟨t1a, t1b⟩ := ite_scaled_bounds (c := shift.minimum_skill_level ≤ staff.skill_level)
    (min ((staff.skill_level : ℚ) / 10) 1) 0.3 h1 h2 (by norm_num)
  obtain ⟨t2a, t2b⟩ := ite_weight_bounds
    (c := (staff.department == shift.department) = true) (0.25 : ℚ) (by norm_num)
  obtain ⟨t3a, t3b⟩ := ite_weight_bounds
    (c := (staff.preferred_shifts.contains shift.shift_type) = true) (0.20 : ℚ) (by norm_num)
  have t4a : 0 ≤ min ((staff.experience_years : ℚ) / 15) 1 * 0.15 := by positivity
  have t4b : min ((staff.experience_years : ℚ) / 15) 1 * 0.15 ≤ 0.15 := by nlinarith
  obtain ⟨t5a, t5b⟩ := ite_weight_bounds
    (c := (!staff.unavailable_dates.contains shift.date) = true) (0.10 : ℚ) (by norm_num)
  constructor <;> linarith

/-- Monotonicity of the uncapped score in `skill_level`. -/
theorem allocationScore_mono (staff : StaffMember) (shift : Shift) (k1 k2 : Nat)
    (h12 : k1 ≤ k2) :
    allocationScore { staff with skill_level := k1 } shift ≤
      allocationScore { staff with skill_level := k2 } shift := by
  rw [allocationScore_eq, allocationScore_eq]
  have hmin : min ((k1 : ℚ) / 10) 1 ≤ min ((k2 : ℚ) / 10) 1 := by
    have hc : (k1 : ℚ) ≤ (k2 : ℚ) := by exact_mod_cast h12
    gcongr
  refine add_le_add (add_le_add (add_le_add (add_le_add ?_ le_rfl) le_rfl) le_rfl) le_rfl
  split_ifs with hA hB
  · exact mul_le_mul_of_nonneg_right hmin (by norm_num)
  · exact absurd (le_trans hA h12) hB
  · exact mul_nonneg (le_min (by positivity) (by norm_num)) (by norm_num)
  · exact le_rfl

/-- C6: both allocation-score computations (the service's suitability
score and the agent's score) are in `[0, 1]` for every staff/shift pair,
and with all other attributes held fixed both are monotonically
non-decreasing in `skill_level` up to 10. -/
theorem score_bounds_monotone :
    (∀ (staff : StaffMember) (shift : Shift),
      0 ≤ suitabilityScore staff shift ∧ suitabilityScore staff shift ≤ 1 ∧
      0 ≤ allocationScore staff shift ∧ allocationScore staff shift ≤ 1) ∧
    (∀ (staff : StaffMember) (shift : Shift) (k1 k2 : Nat), k1 ≤ k2 → k2 ≤ 10 →
      suitabilityScore { staff with skill_level := k1 } shift ≤
        suitabilityScore { staff with skill_level := k2 } shift ∧
      allocationScore { staff with skill_level := k1 } shift ≤
        allocationScore { staff with skill_level := k2 } shift) := by
  constructor
  · intro staff shift
    obtain ⟨hb0, hb1⟩ := allocationScore_bounds staff shift
    refine ⟨?_, ?_, hb0, hb1⟩
    · rw [suitabilityScore_eq_min]
      exact le_min hb0 (by norm_num)
    · rw [suitabilityScore_eq_min]
      exact min_le_right _ _
  · intro staff shift k1 k2 h12 _
    refine ⟨?_, allocationScore_mono staff shift k1 k2 h12⟩
    rw [suitabilityScore_eq_min, suitabilityScore_eq_min]
    exact min_le_min (allocationScore_mono staff shift k1 k2 h12) le_rfl

/-- C6 witness: concrete monotone instance at skill levels 3 and 7. -/
theorem score_bounds_monotone_witness :
    suitabilityScore { wStaff with skill_level := 3 } (wShift "shiftA" 5) ≤
      suitabilityScore { wStaff with skill_level := 7 } (wShift "shiftA" 5) :=
  (score_bounds_monotone.2 wStaff (wShift "shiftA" 5) 3 7 (by decide) (by decide)).1

/-- Unfolding `create_allocation` when both references resolve. -/
theorem createAllocation_found (now newId : String) (s : Store) (staffId shiftId : String)
    (conf : ℚ) (reasoning : String) (staff : StaffMember) (shift : Shift)
    (hst : getStaffById s staffId = some staff) (hsh : getShiftById s shiftId = some shift) :
    createAllocation now newId s staffId shiftId conf reasoning =
      (some (manualBuilt now newId s staffId shiftId conf reasoning),
        { s with allocations := s.allocations ++
            [manualBuilt now newId s staffId shiftId conf reasoning] }) := by
  simp only [createAllocation, hst, hsh, manualBuilt]

/-- C2: `create_allocation` returns null and persists nothing when staff
or shift is missing; otherwise it persists and returns a record that is
`confirmed` with an `assigned_at` stamp exactly when the rule engine
reports `is_valid`, is otherwise persisted still `pending` (never
`rejected`), and carries violations and warnings in
`potential_issues`. -/
theorem create_allocation_contract (now newId : String) (s : Store) (staffId shiftId : String)
    (conf : ℚ) (reasoning : String) :
    ((getStaffById s staffId = none ∨ getShiftById s shiftId = none) →
      createAllocation now newId s staffId shiftId conf reasoning = (none, s)) ∧
    (∀ (staff : StaffMember) (shift : Shift),
      getStaffById s staffId = some staff → getShiftById s shiftId = some shift →
      ∃ a, createAllocation now newId s staffId shiftId conf reasoning =
          (some a, { s with allocations := s.allocations ++ [a] }) ∧
        ((validateAllocation s (manualCandidate newId staffId shiftId conf reasoning)).is_valid
            = true ↔ a.status = .confirmed ∧ a.assigned_at = some now) ∧
        ((validateAllocation s (manualCandidate newId staffId shiftId conf reasoning)).is_valid
            = false → a.status = .pending ∧ a.assigned_at = none) ∧
        a.potential_issues =
          (validateAllocation s (manualCandidate newId staffId shiftId conf reasoning)
            ).violations ++
          (validateAllocation s (manualCandidate newId staffId shiftId conf reasoning)
            ).warnings ∧
        a.status ≠ .rejected) := by
  constructor
  · rintro (h | h)
    · cases hsh : getShiftById s shiftId <;> simp [createAllocation, h, hsh]
    · cases hst : getStaffById s staffId <;> simp [createAllocation, h, hst]
  · intro staff shift hst hsh
    rw [createAllocation_found now newId s staffId shiftId conf reasoning staff shift hst hsh]
    refine ⟨_, rfl, ?_, ?_, rfl, ?_⟩
    · cases hv : (validateAllocation s
          (manualCandidate newId staffId shiftId conf reasoning)).is_valid
      · simp [manualBuilt, hv]
      · simp [manualBuilt, hv]
    · intro hv
      simp [manualBuilt, hv]
    · cases hv : (validateAllocation s
          (manualCandidate newId staffId shiftId conf reasoning)).is_valid <;>
        simp [manualBuilt, hv]

/-- C2 witness: missing staff id on the empty store yields null and no
persistence. -/
theorem create_allocation_contract_witness :
    createAllocation "T" "aX" emptyStore "nobody" "noshift" 0 "m" = (none, emptyStore) :=
  (create_allocation_contract "T" "aX" emptyStore "nobody" "noshift" 0 "m").1 (Or.inl rfl)

/-- The weekly-hours loop never decreases its accumulator. -/
theorem weeklyLoop_ge_acc (s : Store) (ws : Int) :
    ∀ (l : List AllocationRecord) (acc n : Nat), weeklyLoop s ws acc l = .ok n → acc ≤ n := by
  intro l
  induction l with
  | nil =>
    intro acc n h
    simp only [weeklyLoop] at h
    cases h
    exact le_rfl
  | cons al rest ih =>
    intro acc n h
    cases hsh : getShiftById s al.shift_id with
    | none =>
      simp only [weeklyLoop, hsh] at h
      exact ih acc n h
    | some sh =>
      cases hd : parseDate sh.date with
      | none =>
        simp only [weeklyLoop, hsh, hd] at h
        exact absurd h (by simp)
      | some d =>
        simp only [weeklyLoop, hsh, hd] at h
        have := ih _ n h
        by_cases hc : ws ≤ d ∧ d < ws + 7
        · rw [if_pos hc] at this; omega
        · rw [if_neg hc] at this; omega

/-- The weekly-hours loop counts 8 hours for a member of the list whose
shift lies in the week window. -/
theorem weeklyLoop_self_counts (s : Store) (ws : Int) (a : AllocationRecord) (shift : Shift)
    (d : Int) (hash : getShiftById s a.shift_id = some shift)
    (hd : parseDate shift.date = some d) (hle : ws ≤ d) (hlt : d < ws + 7) :
    ∀ (l : List AllocationRecord) (acc n : Nat), a ∈ l →
      weeklyLoop s ws acc l = .ok n → acc + 8 ≤ n := by
  intro l
  induction l with
  | nil => intro acc n hmem; simp at hmem
  | cons b rest ih =>
    intro acc n hmem h
    rcases List.mem_cons.mp hmem with rfl | hmem
    · simp only [weeklyLoop, hash, hd, if_pos (And.intro hle hlt)] at h
      exact weeklyLoop_ge_acc s ws rest (acc + 8) n h
    · cases hsh : getShiftById s b.shift_id with
      | none =>
        simp only [weeklyLoop, hsh] at h
        exact ih acc n hmem h
      | some sh =>
        cases hdb : parseDate sh.date with
        | none =>
          simp only [weeklyLoop, hsh, hdb] at h
          exact absurd h (by simp)
        | some db =>
          simp only [weeklyLoop, hsh, hdb] at h
          have := ih _ n hmem h
          by_cases hc : ws ≤ db ∧ db < ws + 7
          · rw [if_pos hc] at this; omega
          · rw [if_neg hc] at this; omega

/-- A stored allocation's own shift always lies in its own week, so
re-computing the weekly-hours tally for it yields at least 16 hours
(its own 8 plus the fixed 8 added for the candidate shift). -/
theorem weeklyHours_counts_self (s : Store) (staff : StaffMember) (shift : Shift)
    (a : AllocationRecord) (ha : a ∈ s.allocations) (hstid : a.staff_id = staff.id)
    (hash : getShiftById s a.shift_id = some shift) :
    ∀ n, weeklyHoursOf s staff shift = .ok n → 16 ≤ n := by
  intro n h
  cases hd : parseDate shift.date with
  | none =>
    simp only [weeklyHoursOf, hd] at h
    exact absurd h (by simp)
  | some d =>
    have hmem : a ∈ getAllocationsByStaff s staff.id := by
      refine List.mem_filter.mpr ⟨ha, ?_⟩
      simp [hstid]
    have hnn : 0 ≤ (d + 3) % 7 := Int.emod_nonneg _ (by norm_num)
    have hub : (d + 3) % 7 < 7 := Int.emod_lt_of_pos _ (by norm_num)
    cases hbase : weeklyLoop s (d - (d + 3) % 7) 0 (getAllocationsByStaff s staff.id) with
    | error e =>
      simp only [weeklyHoursOf, hd, hbase] at h
      exact absurd h (by simp)
    | ok base =>
      simp only [weeklyHoursOf, hd, hbase] at h
      have hn : n = base + 8 := by
        cases h
        rfl
      have h8 : 0 + 8 ≤ base :=
        weeklyLoop_self_counts s (d - (d + 3) % 7) a shift d hash hd (by omega) (by omega)
          (getAllocationsByStaff s staff.id) 0 base hmem hbase
      omega

/-- A validation that came out valid implies the capacity rule passed:
the shift resolves and its all-statuses allocation count is strictly
below capacity. -/
theorem valid_implies_capacity (s : Store) (a : AllocationRecord)
    (h : (validateAllocation s a).is_valid = true) :
    ∃ staff shift, getStaffById s a.staff_id = some staff ∧
      getShiftById s a.shift_id = some shift ∧
      allocCount s shift.id < shift.max_capacity := by
  cases hst : getStaffById s a.staff_id with
  | none =>
    simp only [validateAllocation, hst] at h
    exact absurd h (by simp)
  | some staff =>
    cases hsh : getShiftById s a.shift_id with
    | none =>
      simp only [validateAllocation, hst, hsh] at h
      exact absurd h (by simp)
    | some shift =>
      refine ⟨staff, shift, rfl, rfl, ?_⟩
      by_contra hcap
      push_neg at hcap
      have hdec : decide (shift.max_capacity ≤ allocCount s shift.id) = true :=
        decide_eq_true hcap
      have hviol : isCriticalViolation
          ("shift_capacity", "critical", .ok (checkShiftCapacity s shift)) = true := by
        simp [isCriticalViolation, checkShiftCapacity, hdec]
      have hmem : ("shift_capacity", "critical",
          (Except.ok (checkShiftCapacity s shift) : Except String RuleRes))
          ∈ ruleOutcomes s a staff shift := by
        simp [ruleOutcomes]
      have hne : (ruleOutcomes s a staff shift).filter isCriticalViolation ≠ [] :=
        List.ne_nil_of_mem (List.mem_filter.mpr ⟨hmem, hviol⟩)
      simp only [validateAllocation, hst, hsh] at h
      cases hcase : (ruleOutcomes s a staff shift).filter isCriticalViolation with
      | nil => exact hne hcase
      | cons x xs => rw [hcase] at h; simp at h

/-- When the shift is at or above capacity, the validation reports a
violated critical `shift_capacity` rule and is invalid. -/
theorem capacity_violation_reported (s : Store) (a : AllocationRecord)
    (staff : StaffMember) (shift : Shift)
    (hst : getStaffById s a.staff_id = some staff)
    (hsh : getShiftById s a.shift_id = some shift)
    (hcap : shift.max_capacity ≤ allocCount s shift.id) :
    ∃ m, ("shift_capacity", "critical", RuleRes.mk true m) ∈
        (validateAllocation s a).constraint_details ∧
      m ∈ (validateAllocation s a).violations ∧
      (validateAllocation s a).is_valid = false := by
  have hdec : decide (shift.max_capacity ≤ allocCount s shift.id) = true := decide_eq_true hcap
  have hv : checkShiftCapacity s shift =
      ⟨true, "Shift at capacity (" ++ toString (allocCount s shift.id) ++ "/" ++
        toString shift.max_capacity ++ ")"⟩ := by
    simp [checkShiftCapacity, hdec]
  have hmem : ("shift_capacity", "critical",
      (Except.ok (checkShiftCapacity s shift) : Except String RuleRes))
      ∈ ruleOutcomes s a staff shift := by
    simp [ruleOutcomes]
  refine ⟨"Shift at capacity (" ++ toString (allocCount s shift.id) ++ "/" ++
    toString shift.max_capacity ++ ")", ?_, ?_, ?_⟩
  · have hdet : (validateAllocation s a).constraint_details
        = (ruleOutcomes s a staff shift).filterMap (fun e =>
            match e.2.2 with
            | .ok r => some (e.1, e.2.1, r)
            | .error _ => none) := by
      simp only [validateAllocation, hst, hsh]
    rw [hdet]
    refine List.mem_filterMap.mpr ⟨_, hmem, ?_⟩
    rw [hv]
  · have hviols : (validateAllocation s a).violations
        = (ruleOutcomes s a staff shift).filterMap (fun e =>
            match e.2.2 with
            | .ok r => if r.violated && e.2.1 == "critical" then some r.message else none
            | .error _ => none) := by
      simp only [validateAllocation, hst, hsh]
    rw [hviols]
    refine List.mem_filterMap.mpr ⟨_, hmem, ?_⟩
    rw [hv]
    simp
  · have hviol : isCriticalViolation
        ("shift_capacity", "critical", .ok (checkShiftCapacity s shift)) = true := by
      simp [isCriticalViolation, checkShiftCapacity, hdec]
    have hne : (ruleOutcomes s a staff shift).filter isCriticalViolation ≠ [] :=
      List.ne_nil_of_mem (List.mem_filter.mpr ⟨hmem, hviol⟩)
    simp only [validateAllocation, hst, hsh]
    cases hcase : (ruleOutcomes s a staff shift).filter isCriticalViolation with
    | nil => exact absurd hcase hne
    | cons x xs => simp [hcase]

/-- C9: re-validating a persisted allocation counts the allocation
itself — the capacity tally contains its own entry and the weekly-hours
sum, when it completes, is at least 16 (its own 8 plus the candidate 8
again) — so a stored allocation whose shift's total allocation count
equals `max_capacity` is reported as a `shift_capacity` violation with
`is_valid` false when re-validated after persistence. -/
theorem revalidation_counts_self (s : Store) (a : AllocationRecord)
    (staff : StaffMember) (shift : Shift)
    (ha : getAllocationById s a.id = some a)
    (hst : getStaffById s a.staff_id = some staff)
    (hsh : getShiftById s a.shift_id = some shift)
    (hcap : allocCount s shift.id = shift.max_capacity) :
    a ∈ getAllocationsByShift s shift.id ∧
    (∀ n, weeklyHoursOf s staff shift = .ok n → 16 ≤ n) ∧
    ∃ v, validateAllocationById s a.id = some v ∧ v.is_valid = false ∧
      ∃ m, ("shift_capacity", "critical", RuleRes.mk true m) ∈ v.constraint_details ∧
        m ∈ v.violations := by
  have hamem : a ∈ s.allocations := List.mem_of_find?_eq_some ha
  have hsh' : s.shifts.find? (fun sh => sh.id == a.shift_id) = some shift := hsh
  have hshid0 := List.find?_some hsh'
  have hshid : shift.id = a.shift_id := by simpa using hshid0
  have hst' : s.staff.find? (fun st => st.id == a.staff_id) = some staff := hst
  have hstid0 := List.find?_some hst'
  have hstid : staff.id = a.staff_id := by simpa using hstid0
  refine ⟨?_, ?_, ?_⟩
  · refine List.mem_filter.mpr ⟨hamem, ?_⟩
    simp [hshid]
  · exact weeklyHours_counts_self s staff shift a hamem hstid.symm hsh
  · obtain ⟨m, hm1, hm2, hm3⟩ :=
      capacity_violation_reported s a staff shift hst hsh (le_of_eq hcap.symm)
    exact ⟨validateAllocation s a, by simp [validateAllocationById, ha], hm3, m, hm1, hm2⟩

/-- C9 witness: the capacity-1 store with its single stored allocation. -/
theorem revalidation_counts_self_witness :
    wAlloc ∈ getAllocationsByShift w9 (wShift "shiftA" 1).id ∧
    (∀ n, weeklyHoursOf w9 wStaff (wShift "shiftA" 1) = .ok n → 16 ≤ n) ∧
    ∃ v, validateAllocationById w9 wAlloc.id = some v ∧ v.is_valid = false ∧
      ∃ m, ("shift_capacity", "critical", RuleRes.mk true m) ∈ v.constraint_details ∧
        m ∈ v.violations :=
  revalidation_counts_self w9 wAlloc wStaff (wShift "shiftA" 1) rfl rfl rfl rfl

/-- Filtering with a conjunction never keeps more elements. -/
theorem length_filter_and_le {α : Type} (p q : α → Bool) (l : List α) :
    (l.filter fun a => p a && q a).length ≤ (l.filter p).length := by
  have hs : (l.filter fun a => p a && q a) = (l.filter fun a => q a && p a) := by
    apply List.filter_congr
    intro a _
    exact Bool.and_comm (p a) (q a)
  rw [hs, ← List.filter_filter]
  exact List.length_filter_le _ _

/-- Confirmed allocations are among all allocations of the shift. -/
theorem confirmedCount_le_allocCount (s : Store) (i : String) :
    confirmedCount s i ≤ allocCount s i := by
  unfold confirmedCount allocCount getAllocationsByShift
  exact length_filter_and_le _ _ _

/-- In a store with pairwise-distinct shift ids, two stored shifts with
the same id are the same shift. -/
theorem shift_id_inj (s : Store) (hu : uniqueShiftIds s) {sh1 sh2 : Shift}
    (h1 : sh1 ∈ s.shifts) (h2 : sh2 ∈ s.shifts) (hid : sh1.id = sh2.id) : sh1 = sh2 :=
  List.inj_on_of_nodup_map hu h1 h2 hid

/-- The shift `get_shift_by_id` returns carries the looked-up id and is
stored. -/
theorem getShiftById_spec (s : Store) (i : String) (sh : Shift)
    (h : getShiftById s i = some sh) : sh ∈ s.shifts ∧ sh.id = i := by
  have h' : s.shifts.find? (fun x => x.id == i) = some sh := h
  exact ⟨List.mem_of_find?_eq_some h', by simpa using List.find?_some h'⟩

/-- `create_allocation` never touches the shift list. -/
theorem createAllocation_shifts (now newId : String) (s : Store) (staffId shiftId : String)
    (conf : ℚ) (reasoning : String) :
    (createAllocation now newId s staffId shiftId conf reasoning).2.shifts = s.shifts := by
  cases hst : getStaffById s staffId <;> cases hsh : getShiftById s shiftId <;>
    simp [createAllocation, hst, hsh]

/-- The capacity invariant is preserved by one manual create. -/
theorem manual_preserves_inv (now newId : String) (s : Store) (staffId shiftId : String)
    (conf : ℚ) (reasoning : String) (hu : uniqueShiftIds s) (hI : CapacityInv s) :
    CapacityInv (createAllocation now newId s staffId shiftId conf reasoning).2 := by
  cases hst : getStaffById s staffId with
  | none =>
    have hrun : createAllocation now newId s staffId shiftId conf reasoning = (none, s) := by
      cases hsh : getShiftById s shiftId <;> simp [createAllocation, hst, hsh]
    rw [hrun]
    exact hI
  | some staff =>
    cases hsh : getShiftById s shiftId with
    | none =>
      have hrun : createAllocation now newId s staffId shiftId conf reasoning = (none, s) := by
        simp [createAllocation, hst, hsh]
      rw [hrun]
      exact hI
    | some shiftT =>
      rw [createAllocation_found now newId s staffId shiftId conf reasoning staff shiftT hst hsh]
      intro sh hmem
      have hcc : confirmedCount { s with allocations := s.allocations ++
          [manualBuilt now newId s staffId shiftId conf reasoning] } sh.id
          = confirmedCount s sh.id +
            (List.filter (fun al => al.shift_id == sh.id && decide (al.status = .confirmed))
              [manualBuilt now newId s staffId shiftId conf reasoning]).length := by
        unfold confirmedCount
        simp [List.filter_append]
      rw [hcc]
      by_cases hval :
          (validateAllocation s (manualCandidate newId staffId shiftId conf reasoning)).is_valid
          = true
      · by_cases hid : shiftId = sh.id
        · obtain ⟨staff', shift', _, hsh', hcap⟩ :=
            valid_implies_capacity s (manualCandidate newId staffId shiftId conf reasoning) hval
          have hsh'' : getShiftById s shiftId = some shift' := hsh'
          have heq : shift' = shiftT := by
            rw [hsh] at hsh''
            exact (Option.some.inj hsh'').symm
          obtain ⟨hTmem, hTid⟩ := getShiftById_spec s shiftId shiftT hsh
          have hTsh : shiftT = sh := shift_id_inj s hu hTmem hmem (hTid.trans hid)
          have hlen : (List.filter
              (fun al => al.shift_id == sh.id && decide (al.status = .confirmed))
              [manualBuilt now newId s staffId shiftId conf reasoning]).length ≤ 1 := by
            simp only [List.filter]
            split <;> simp
          have hc1 : confirmedCount s sh.id ≤ allocCount s sh.id :=
            confirmedCount_le_allocCount s sh.id
          have hc2 : allocCount s sh.id < sh.max_capacity := by
            have hx : allocCount s shift'.id < shift'.max_capacity := hcap
            rwa [heq, hTsh] at hx
          omega
        · have hb : ((manualBuilt now newId s staffId shiftId conf reasoning).shift_id == sh.id)
              = false := beq_eq_false_iff_ne.mpr hid
          have hnil : (List.filter
              (fun al => al.shift_id == sh.id && decide (al.status = .confirmed))
              [manualBuilt now newId s staffId shiftId conf reasoning]).length = 0 := by
            simp [List.filter, hb]
          rw [hnil]
          have := hI sh hmem
          omega
      · have hstat : (manualBuilt now newId s staffId shiftId conf reasoning).status
            = .pending := by
          rw [Bool.not_eq_true] at hval
          simp [manualBuilt, hval]
        have hb : decide ((manualBuilt now newId s staffId shiftId conf reasoning).status
            = AllocationStatus.confirmed) = false := by
          rw [hstat]
          simp
        have hnil : (List.filter
            (fun al => al.shift_id == sh.id && decide (al.status = .confirmed))
            [manualBuilt now newId s staffId shiftId conf reasoning]).length = 0 := by
          simp [List.filter, hb]
        rw [hnil]
        have := hI sh hmem
        omega

/-- Pointwise-equal functions map alike. -/
theorem map_congr_of {α β : Type} (f g : α → β) :
    ∀ l : List α, (∀ x ∈ l, f x = g x) → l.map f = l.map g := by
  intro l
  induction l with
  | nil => intro _; rfl
  | cons x t ih =>
    intro h
    simp only [List.map_cons]
    rw [h x (by simp), ih (fun y hy => h y (by simp [hy]))]

/-- A map that fixes every member is the identity. -/
theorem map_eq_self_of {α : Type} (f : α → α) :
    ∀ l : List α, (∀ x ∈ l, f x = x) → l.map f = l := by
  intro l
  induction l with
  | nil => intro _; rfl
  | cons x t ih =>
    intro h
    simp only [List.map_cons]
    rw [h x (by simp), ih (fun y hy => h y (by simp [hy]))]

/-- The agent's allocator appends exactly the batch it returns. -/
theorem agentAllocate_store (recs : List AgentRec) :
    ∀ (ids : List String) (s : Store),
      (agentAllocate s ids recs).2 =
        { s with allocations := s.allocations ++ (agentAllocate s ids recs).1 } := by
  intro ids
  induction ids with
  | nil => intro s; simp [agentAllocate]
  | cons sid rest ih =>
    intro s
    cases hsh : getShiftById s sid with
    | none =>
      simp only [agentAllocate, hsh]
      exact ih s
    | some sh =>
      simp only [agentAllocate, hsh]
      rw [ih { s with allocations := s.allocations ++ materialize recs sid }]
      simp [List.append_assoc]

/-- The agent's allocator never touches the shift list. -/
theorem agentAllocate_shifts (recs : List AgentRec) (ids : List String) (s : Store) :
    (agentAllocate s ids recs).2.shifts = s.shifts := by
  rw [agentAllocate_store]

/-- Store shape after an auto-allocate batch, given fresh and pairwise
distinct batch ids: the batch is appended with statuses assigned from
its validation against the post-insertion store, and the pre-existing
allocations are untouched. -/
theorem auto_store_allocations (now : String) (s : Store) (ids : List String)
    (recs : List AgentRec)
    (hnd : (((agentAllocate s ids recs).1).map (fun b => b.id)).Nodup)
    (hfresh : ∀ i ∈ ((agentAllocate s ids recs).1).map (fun b => b.id), i ∉ allocIds s) :
    autoAllocateStore now s ids recs =
      { s with allocations := s.allocations ++
          ((agentAllocate s ids recs).1).map (fun b =>
            if (validateAllocation (agentAllocate s ids recs).2 b).is_valid then
              { b with status := .confirmed, assigned_at := some now }
            else { b with status := .rejected }) } := by
  have hupd : ∀ (sv : Store), ∀ al ∈ s.allocations,
      (match ((agentAllocate s ids recs).1).find? (fun b => b.id == al.id) with
        | some b =>
          if (validateAllocation sv b).is_valid then
            { al with status := .confirmed, assigned_at := some now }
          else { al with status := .rejected }
        | none => al) = al := by
    intro sv al hal
    have hnone : ((agentAllocate s ids recs).1).find? (fun b => b.id == al.id) = none := by
      rw [List.find?_eq_none]
      intro b hb hbeq
      have hbid : b.id = al.id := by simpa using hbeq
      have hnotin := hfresh b.id (List.mem_map_of_mem _ hb)
      exact hnotin (hbid ▸ List.mem_map_of_mem (fun x => x.id) hal)
    rw [hnone]
  have hbatch : ∀ (sv : Store), ∀ b0 ∈ (agentAllocate s ids recs).1,
      (match ((agentAllocate s ids recs).1).find? (fun b => b.id == b0.id) with
        | some b =>
          if (validateAllocation sv b).is_valid then
            { b0 with status := .confirmed, assigned_at := some now }
          else { b0 with status := .rejected }
        | none => b0) =
      (if (validateAllocation sv b0).is_valid then
        { b0 with status := .confirmed, assigned_at := some now }
      else { b0 with status := .rejected }) := by
    intro sv b0 hb0
    rw [find?_of_nodup_keys (fun b => b.id) hnd hb0]
  simp only [autoAllocateStore]
  rw [agentAllocate_store]
  simp only [List.map_append]
  congr 1
  rw [map_eq_self_of _ s.allocations (hupd _),
    map_congr_of _ _ (agentAllocate s ids recs).1 (hbatch _)]

/-- `getShiftById` only reads the shift list. -/
theorem getShiftById_congr (s1 s2 : Store) (h : s1.shifts = s2.shifts) (i : String) :
    getShiftById s1 i = getShiftById s2 i := by
  unfold getShiftById
  rw [h]

/-- The capacity invariant is preserved by one auto-allocate batch with
fresh, pairwise-distinct ids. -/
theorem auto_preserves_inv (now : String) (s : Store) (ids : List String) (recs : List AgentRec)
    (hu : uniqueShiftIds s) (hI : CapacityInv s)
    (hnd : (((agentAllocate s ids recs).1).map (fun b => b.id)).Nodup)
    (hfresh : ∀ i ∈ ((agentAllocate s ids recs).1).map (fun b => b.id), i ∉ allocIds s) :
    CapacityInv (autoAllocateStore now s ids recs) := by
  rw [auto_store_allocations now s ids recs hnd hfresh]
  intro sh hmem
  have hcc : confirmedCount { s with allocations := s.allocations ++
      ((agentAllocate s ids recs).1).map (fun b =>
        if (validateAllocation (agentAllocate s ids recs).2 b).is_valid then
          { b with status := .confirmed, assigned_at := some now }
        else { b with status := .rejected }) } sh.id
      = confirmedCount s sh.id +
        ((((agentAllocate s ids recs).1).map (fun b =>
          if (validateAllocation (agentAllocate s ids recs).2 b).is_valid then
            { b with status := .confirmed, assigned_at := some now }
          else { b with status := .rejected })).filter
          (fun al => al.shift_id == sh.id && decide (al.status = .confirmed))).length := by
    unfold confirmedCount
    simp [List.filter_append]
  rw [hcc]
  have hfm : ((((agentAllocate s ids recs).1).map (fun b =>
      if (validateAllocation (agentAllocate s ids recs).2 b).is_valid then
        { b with status := .confirmed, assigned_at := some now }
      else { b with status := .rejected })).filter
      (fun al => al.shift_id == sh.id && decide (al.status = .confirmed)))
      = (((agentAllocate s ids recs).1).filter (fun b =>
          b.shift_id == sh.id && (validateAllocation (agentAllocate s ids recs).2 b).is_valid)
        ).map (fun b =>
          if (validateAllocation (agentAllocate s ids recs).2 b).is_valid then
            { b with status := .confirmed, assigned_at := some now }
          else { b with status := .rejected }) := by
    rw [List.filter_map]
    congr 1
    apply List.filter_congr
    intro b _
    by_cases hv : (validateAllocation (agentAllocate s ids recs).2 b).is_valid = true
    · simp [hv]
    · rw [Bool.not_eq_true] at hv
      simp [hv]
  rw [hfm, List.length_map]
  cases hcase : ((agentAllocate s ids recs).1).filter (fun b =>
      b.shift_id == sh.id && (validateAllocation (agentAllocate s ids recs).2 b).is_valid) with
  | nil =>
    have hIs := hI sh hmem
    simpa using hIs
  | cons b0 rest =>
    have hb0f : b0 ∈ ((agentAllocate s ids recs).1).filter (fun b =>
        b.shift_id == sh.id && (validateAllocation (agentAllocate s ids recs).2 b).is_valid) := by
      rw [hcase]
      simp
    have hb0 := List.mem_filter.mp hb0f
    have hb0p := hb0.2
    rw [Bool.and_eq_true] at hb0p
    have hb0sh : b0.shift_id = sh.id := by simpa using hb0p.1
    have hb0v : (validateAllocation (agentAllocate s ids recs).2 b0).is_valid = true := hb0p.2
    obtain ⟨staff', shift', _, hsh', hcap⟩ :=
      valid_implies_capacity (agentAllocate s ids recs).2 b0 hb0v
    have hsame : getShiftById (agentAllocate s ids recs).2 b0.shift_id
        = getShiftById s b0.shift_id :=
      getShiftById_congr _ _ (agentAllocate_shifts recs ids s) _
    obtain ⟨hmem', hid'⟩ := getShiftById_spec s b0.shift_id shift' (hsame ▸ hsh')
    have hshvsh : shift' = sh := shift_id_inj s hu hmem' hmem (hid'.trans hb0sh)
    have hac1 : allocCount (agentAllocate s ids recs).2 sh.id
        = allocCount s sh.id +
          (((agentAllocate s ids recs).1).filter (fun b => b.shift_id == sh.id)).length := by
    -- s1.allocations = s.allocations ++ batch
      rw [agentAllocate_store]
      unfold allocCount getAllocationsByShift
      simp [List.filter_append]
    have hac2 : allocCount (agentAllocate s ids recs).2 sh.id < sh.max_capacity := by
      have hx := hcap
      rwa [hshvsh] at hx
    have hle1 : confirmedCount s sh.id ≤ allocCount s sh.id :=
      confirmedCount_le_allocCount s sh.id
    have hle2 : (((agentAllocate s ids recs).1).filter (fun b =>
        b.shift_id == sh.id && (validateAllocation (agentAllocate s ids recs).2 b).is_valid)
        ).length ≤
        (((agentAllocate s ids recs).1).filter (fun b => b.shift_id == sh.id)).length :=
      length_filter_and_le _ _ _
    rw [hcase] at hle2
    omega

/-- No allocation-creating operation touches the shift list. -/
theorem applyOp_shifts (s : Store) (op : AllocOp) : (applyOp s op).shifts = s.shifts := by
  cases op with
  | manual now newId staffId shiftId conf reasoning =>
    exact createAllocation_shifts now newId s staffId shiftId conf reasoning
  | auto now ids recs =>
    show (autoAllocateStore now s ids recs).shifts = s.shifts
    simp only [autoAllocateStore]
    rw [agentAllocate_shifts]

/-- The capacity invariant is preserved along any id-fresh operation
sequence. -/
theorem applyOps_preserves :
    ∀ (ops : List AllocOp) (s : Store), uniqueShiftIds s → CapacityInv s → opsFresh s ops →
      CapacityInv (applyOps s ops) := by
  intro ops
  induction ops with
  | nil => intro s _ hI _; exact hI
  | cons op rest ih =>
    intro s hu hI hf
    have hf1 : opFresh s op := hf.1
    have hf2 : opsFresh (applyOp s op) rest := hf.2
    have hu' : uniqueShiftIds (applyOp s op) := by
      unfold uniqueShiftIds
      rw [applyOp_shifts]
      exact hu
    have hI' : CapacityInv (applyOp s op) := by
      cases op with
      | manual now newId staffId shiftId conf reasoning =>
        exact manual_preserves_inv now newId s staffId shiftId conf reasoning hu hI
      | auto now ids recs =>
        exact auto_preserves_inv now s ids recs hu hI hf1.1 hf1.2
    exact ih (applyOp s op) hu' hI' hf2

/-- C1: starting from a store with pairwise-distinct shift ids whose
shifts each satisfy the confirmed-count bound, any sequence of manual
creates and auto-allocate batches (with fresh batch ids) preserves the
bound; and a manual create attempted on a shift whose confirmed count
has reached `max_capacity` is returned un-confirmed (`pending`, no
timestamp) carrying a critical `shift_capacity` violation in its
issues — never silently accepted. -/
theorem capacity_invariant :
    (∀ (s0 : Store) (ops : List AllocOp), uniqueShiftIds s0 → CapacityInv s0 →
      opsFresh s0 ops → CapacityInv (applyOps s0 ops)) ∧
    (∀ (s : Store) (now newId staffId shiftId : String) (conf : ℚ) (reasoning : String)
      (staff : StaffMember) (shift : Shift),
      getStaffById s staffId = some staff → getShiftById s shiftId = some shift →
      shift.max_capacity ≤ confirmedCount s shift.id →
      ∃ a, (createAllocation now newId s staffId shiftId conf reasoning).1 = some a ∧
        a.status = .pending ∧ a.assigned_at = none ∧
        ∃ m, ("shift_capacity", "critical", RuleRes.mk true m) ∈
            (validateAllocation s (manualCandidate newId staffId shiftId conf reasoning)
              ).constraint_details ∧
          m ∈ a.potential_issues) := by
  constructor
  · intro s0 ops h1 h2 h3
    exact applyOps_preserves ops s0 h1 h2 h3
  · intro s now newId staffId shiftId conf reasoning staff shift hst hsh hcap
    have hcap' : shift.max_capacity ≤ allocCount s shift.id :=
      le_trans hcap (confirmedCount_le_allocCount s shift.id)
    obtain ⟨m, hm1, hm2, hm3⟩ := capacity_violation_reported s
      (manualCandidate newId staffId shiftId conf reasoning) staff shift hst hsh hcap'
    rw [createAllocation_found now newId s staffId shiftId conf reasoning staff shift hst hsh]
    refine ⟨manualBuilt now newId s staffId shiftId conf reasoning, rfl, ?_, ?_, m, hm1, ?_⟩
    · simp [manualBuilt, hm3]
    · simp [manualBuilt, hm3]
    · show m ∈ (validateAllocation s
        (manualCandidate newId staffId shiftId conf reasoning)).violations ++
        (validateAllocation s (manualCandidate newId staffId shiftId conf reasoning)).warnings
      exact List.mem_append_left _ hm2

/-- C1 witness: the invariant holds after a concrete manual create on
the roomy store, and a create on the full capacity-1 store is reported
as a pending capacity violation. -/
theorem capacity_invariant_witness :
    CapacityInv (applyOps w1 [AllocOp.manual "T0" "alloc9" "staff1" "shiftA" 1 "m"]) ∧
    ∃ a, (createAllocation "T1" "alloc10" wFull "staff1" "shiftA" 0 "m").1 = some a ∧
      a.status = .pending ∧ a.assigned_at = none ∧
      ∃ m, ("shift_capacity", "critical", RuleRes.mk true m) ∈
          (validateAllocation wFull (manualCandidate "alloc10" "staff1" "shiftA" 0 "m")
            ).constraint_details ∧
        m ∈ a.potential_issues := by
  constructor
  · exact capacity_invariant.1 w1 [AllocOp.manual "T0" "alloc9" "staff1" "shiftA" 1 "m"]
      (by unfold uniqueShiftIds; decide) (by unfold CapacityInv; decide) ⟨trivial, trivial⟩
  · exact capacity_invariant.2 wFull "T1" "alloc10" "staff1" "shiftA" 0 "m" wStaff
      (wShift "shiftA" 1) rfl rfl (by decide)

/-- Elements located by `getElem?` are members. -/
theorem mem_of_getElem?_eq_some {α : Type} :
    ∀ (l : List α) (i : Nat) (a : α), l[i]? = some a → a ∈ l := by
  intro l
  induction l with
  | nil => intro i a h; simp at h
  | cons x t ih =>
    intro i a h
    cases i with
    | zero =>
      simp only [List.getElem?_cons_zero] at h
      exact (Option.some.inj h) ▸ List.mem_cons_self x t
    | succ j =>
      simp only [List.getElem?_cons_succ] at h
      exact List.mem_cons_of_mem x (ih j a h)

/-- Setting a position to the value it already holds changes nothing. -/
theorem set_same {α : Type} :
    ∀ (l : List α) (i : Nat) (a : α), l[i]? = some a → l.set i a = l := by
  intro l
  induction l with
  | nil => intro i a h; simp at h
  | cons x t ih =>
    intro i a h
    cases i with
    | zero =>
      simp only [List.getElem?_cons_zero] at h
      rw [List.set_cons_zero, Option.some.inj h]
    | succ j =>
      simp only [List.getElem?_cons_succ] at h
      rw [List.set_cons_succ, ih j a h]

/-- `update_staff_availability` never touches the shift list. -/
theorem updateStaffAvailability_shifts (clock : Clock) (s : Store) (staffId : String)
    (status : AvailabilityStatus) (c a l n : Option String) (cb : String) :
    ((updateStaffAvailability clock s staffId status c a l n cb).2).shifts = s.shifts := by
  unfold updateStaffAvailability
  cases getStaffAvailability s staffId <;> simp

/-- `_release_staff_from_shift` never touches the shift list. -/
theorem releaseStaffFromShift_shifts (clock : Clock) (s : Store) (i : String) :
    (releaseStaffFromShift clock s i).shifts = s.shifts := by
  unfold releaseStaffFromShift
  generalize getAllocationsByShift s i = l
  induction l generalizing s with
  | nil => rfl
  | cons al t ih =>
    simp only [List.foldl_cons]
    by_cases hc : al.status = .confirmed
    · rw [if_pos hc, ih]
      exact updateStaffAvailability_shifts clock s al.staff_id .available none (some clock.iso)
        none (some ("Released from completed shift " ++ i)) "system"
    · rw [if_neg hc, ih]

/-- `_mark_staff_working` never touches the shift list. -/
theorem markStaffWorking_shifts (clock : Clock) (s : Store) (i : String) :
    (markStaffWorking clock s i).shifts = s.shifts := by
  unfold markStaffWorking
  generalize getAllocationsByShift s i = l
  induction l generalizing s with
  | nil => rfl
  | cons al t ih =>
    simp only [List.foldl_cons]
    by_cases hc : al.status = .confirmed
    · rw [if_pos hc, ih]
      exact updateStaffAvailability_shifts clock s al.staff_id .working (some i) none
        none (some ("Working shift " ++ i)) "system"
    · rw [if_neg hc, ih]

/-- Shift-list effect of `update_shift_status`. -/
theorem updateShiftStatus_shifts (clock : Clock) (s : Store) (shiftId : String)
    (status : ShiftStatus) (ast aet notes : Option String) (sh : Shift)
    (hsh : getShiftById s shiftId = some sh) :
    ((updateShiftStatus clock s shiftId status ast aet notes).2).shifts =
      replaceFirstShift s.shifts shiftId (setShiftFields sh status ast aet notes) := by
  simp only [updateShiftStatus, hsh]
  by_cases h1 : status = .completed
  · simp only [h1, if_pos rfl]
    exact releaseStaffFromShift_shifts clock _ shiftId
  · rw [if_neg h1]
    by_cases h2 : status = .inProgress
    · rw [if_pos h2]
      exact markStaffWorking_shifts clock _ shiftId
    · rw [if_neg h2]

/-- `setShiftFields` keeps the shift id. -/
theorem setShiftFields_id (sh : Shift) (status : ShiftStatus) (ast aet notes : Option String) :
    (setShiftFields sh status ast aet notes).id = sh.id := by
  simp only [setShiftFields]
  split_ifs <;> rfl

/-- `setShiftFields` installs the requested status. -/
theorem setShiftFields_status (sh : Shift) (status : ShiftStatus)
    (ast aet notes : Option String) :
    (setShiftFields sh status ast aet notes).status = status := by
  simp only [setShiftFields]
  split_ifs <;> rfl

/-- `replaceFirstShift` keyed by the id of the element at a position, in
a list with pairwise-distinct ids, is `List.set` at that position. -/
theorem replaceFirstShift_set :
    ∀ (l : List Shift), ((l.map (fun sh => sh.id)).Nodup) →
      ∀ (i : Nat) (sh sh' : Shift), l[i]? = some sh →
        replaceFirstShift l sh.id sh' = l.set i sh' := by
  intro l
  induction l with
  | nil => intro _ i sh sh' h; simp at h
  | cons a t ih =>
    intro hnd i sh sh' h
    simp only [List.map_cons, List.nodup_cons] at hnd
    cases i with
    | zero =>
      simp only [List.getElem?_cons_zero] at h
      obtain rfl : a = sh := Option.some.inj h
      simp [replaceFirstShift]
    | succ j =>
      simp only [List.getElem?_cons_succ] at h
      have hmem : sh ∈ t := mem_of_getElem?_eq_some t j sh h
      have hne : (a.id == sh.id) = false := by
        refine beq_eq_false_iff_ne.mpr ?_
        intro he
        exact hnd.1 (he ▸ List.mem_map_of_mem (fun x => x.id) hmem)
      simp only [replaceFirstShift, hne, Bool.false_eq_true, if_false, List.set_cons_succ]
      rw [ih hnd.2 j sh sh' h]

/-- `get_shift_by_id` at the id of a stored shift with unique ids. -/
theorem getShiftById_of_nodup (s : Store) (hu : uniqueShiftIds s) (i : Nat) (sh : Shift)
    (h : s.shifts[i]? = some sh) : getShiftById s sh.id = some sh := by
  have hu' : (s.shifts.map (fun x : Shift => x.id)).Nodup := hu
  exact find?_of_nodup_keys (fun x : Shift => x.id) hu'
    (mem_of_getElem?_eq_some s.shifts i sh h)

/-- Shift-list effect of one sweep iteration at position `i`. -/
theorem sweepStep_shifts (clock : Clock) (s : Store) (i : Nat) (hu : uniqueShiftIds s)
    (sh : Shift) (hi : s.shifts[i]? = some sh) (hg : sweepGuard clock sh = true) :
    (sweepStep clock s i).shifts =
      s.shifts.set i (setShiftFields sh .completed none (some clock.iso)
        (some "Shift automatically completed")) := by
  simp only [sweepStep, hi]
  rw [if_pos hg]
  rw [updateShiftStatus_shifts clock s sh.id .completed none (some clock.iso)
    (some "Shift automatically completed") sh (getShiftById_of_nodup s hu i sh hi)]
  have hu' : (s.shifts.map (fun x : Shift => x.id)).Nodup := hu
  exact replaceFirstShift_set s.shifts hu' i sh _ hi

/-- A sweep iteration whose position needs no completion is a no-op. -/
theorem sweepStep_of_swept (clock : Clock) (s : Store) (i : Nat)
    (h : sweptAt clock s i) : sweepStep clock s i = s := by
  cases hi : s.shifts[i]? with
  | none => simp only [sweepStep, hi]
  | some sh => simp only [sweepStep, hi, h sh hi, Bool.false_eq_true, if_false]

/-- One sweep iteration keeps the id sequence of the shift list. -/
theorem sweepStep_ids (clock : Clock) (s : Store) (i : Nat) (hu : uniqueShiftIds s) :
    ((sweepStep clock s i).shifts).map (fun sh => sh.id) =
      s.shifts.map (fun sh => sh.id) := by
  cases hi : s.shifts[i]? with
  | none => simp only [sweepStep, hi]
  | some sh =>
    by_cases hg : sweepGuard clock sh = true
    · rw [sweepStep_shifts clock s i hu sh hi hg, List.map_set, setShiftFields_id]
      refine set_same _ i sh.id ?_
      rw [List.getElem?_map, hi]
      rfl
    · simp only [sweepStep, hi]
      rw [if_neg hg]

/-- One sweep iteration preserves the position contents away from `i`. -/
theorem sweepStep_getElem_ne (clock : Clock) (s : Store) (i : Nat) (hu : uniqueShiftIds s)
    (j : Nat) (hne : j ≠ i) :
    ((sweepStep clock s i).shifts)[j]? = s.shifts[j]? := by
  cases hi : s.shifts[i]? with
  | none => simp only [sweepStep, hi]
  | some sh =>
    by_cases hg : sweepGuard clock sh = true
    · rw [sweepStep_shifts clock s i hu sh hi hg]
      exact List.getElem?_set_ne (fun he => hne he.symm)
    · simp only [sweepStep, hi]
      rw [if_neg hg]

/-- Setting a valid position then reading it gives the new value. -/
theorem getElem?_set_self_aux {α : Type} :
    ∀ (l : List α) (i : Nat) (a : α), i < l.length → (l.set i a)[i]? = some a := by
  intro l
  induction l with
  | nil => intro i a h; simp at h
  | cons x t ih =>
    intro i a h
    cases i with
    | zero => simp
    | succ j =>
      simp only [List.set_cons_succ, List.getElem?_cons_succ]
      exact ih j a (by simpa using h)

/-- After a sweep iteration, its own position needs no completion. -/
theorem sweepStep_swept_self (clock : Clock) (s : Store) (i : Nat) (hu : uniqueShiftIds s) :
    sweptAt clock (sweepStep clock s i) i := by
  intro sh' hsh'
  cases hi : s.shifts[i]? with
  | none =>
    simp only [sweepStep, hi] at hsh'
    cases hsh'
  | some sh =>
    by_cases hg : sweepGuard clock sh = true
    · rw [sweepStep_shifts clock s i hu sh hi hg] at hsh'
      have hlen : i < s.shifts.length := by
        by_contra hge
        push_neg at hge
        rw [List.getElem?_eq_none hge] at hi
        cases hi
      rw [getElem?_set_self_aux _ _ _ hlen] at hsh'
      obtain rfl := (Option.some.inj hsh')
      simp [sweepGuard, setShiftFields_status]
    · have hstep : sweepStep clock s i = s := by
        simp only [sweepStep, hi]
        rw [if_neg hg]
      rw [hstep, hi] at hsh'
      obtain rfl : sh = sh' := Option.some.inj hsh'
      simpa using hg

/-- A sweep iteration elsewhere preserves a position that needs no
completion. -/
theorem sweepStep_swept_other (clock : Clock) (s : Store) (i j : Nat) (hu : uniqueShiftIds s)
    (hne : j ≠ i) (h : sweptAt clock s j) : sweptAt clock (sweepStep clock s i) j := by
  intro sh' hsh'
  rw [sweepStep_getElem_ne clock s i hu j hne] at hsh'
  exact h sh' hsh'

/-- A sweep pass over any index list leaves a store whose listed
positions all need no completion, provided unlisted positions already
need none. -/
theorem sweepAux_swept (clock : Clock) :
    ∀ (L : List Nat) (s : Store), uniqueShiftIds s →
      (∀ j, sweptAt clock s j ∨ j ∈ L) →
      ∀ j, sweptAt clock (sweepAux clock s L) j := by
  intro L
  induction L with
  | nil =>
    intro s _ hcov j
    rcases hcov j with h | h
    · exact h
    · simp at h
  | cons i rest ih =>
    intro s hu hcov j
    have hu' : uniqueShiftIds (sweepStep clock s i) := by
      unfold uniqueShiftIds
      rw [sweepStep_ids clock s i hu]
      exact hu
    refine ih (sweepStep clock s i) hu' ?_ j
    intro j'
    by_cases hji : j' = i
    · exact Or.inl (hji ▸ sweepStep_swept_self clock s i hu)
    · rcases hcov j' with h | h
      · exact Or.inl (sweepStep_swept_other clock s i j' hu hji h)
      · rcases List.mem_cons.mp h with h' | h'
        · exact absurd h' hji
        · exact Or.inr h'

/-- A sweep pass over a fully swept store is the identity. -/
theorem sweepAux_of_all_swept (clock : Clock) :
    ∀ (L : List Nat) (s : Store), (∀ j, sweptAt clock s j) → sweepAux clock s L = s := by
  intro L
  induction L with
  | nil => intro s _; rfl
  | cons i rest ih =>
    intro s h
    show sweepAux clock (sweepStep clock s i) rest = s
    rw [sweepStep_of_swept clock s i (h i)]
    exact ih s h

/-- A sweep pass preserves positions that already need no completion. -/
theorem sweepAux_untouched (clock : Clock) :
    ∀ (L : List Nat) (s : Store), uniqueShiftIds s →
      ∀ (j : Nat) (sh : Shift), s.shifts[j]? = some sh → sweepGuard clock sh = false →
        (sweepAux clock s L).shifts[j]? = some sh := by
  intro L
  induction L with
  | nil => intro s _ j sh hj _; exact hj
  | cons i rest ih =>
    intro s hu j sh hj hg
    have hu' : uniqueShiftIds (sweepStep clock s i) := by
      unfold uniqueShiftIds
      rw [sweepStep_ids clock s i hu]
      exact hu
    show (sweepAux clock (sweepStep clock s i) rest).shifts[j]? = some sh
    refine ih (sweepStep clock s i) hu' j sh ?_ hg
    by_cases hji : j = i
    · subst hji
      rw [sweepStep_of_swept clock s j (fun sh0 hsh0 => by
        rw [hj] at hsh0
        exact (Option.some.inj hsh0) ▸ hg)]
      exact hj
    · rw [sweepStep_getElem_ne clock s i hu j hji]
      exact hj

/-- C8: with pairwise-distinct shift ids, the auto-completion sweep is
idempotent — running it twice (same clock) produces exactly the state of
running it once, so no duplicate timeline entries or availability
changes arise — and a shift that is already `completed` is left entirely
unchanged by the sweep. -/
theorem sweep_idempotent (clock : Clock) (s : Store) (hu : uniqueShiftIds s) :
    releaseCompletedShifts clock (releaseCompletedShifts clock s) =
      releaseCompletedShifts clock s ∧
    (∀ (i : Nat) (sh : Shift), s.shifts[i]? = some sh → sh.status = .completed →
      (releaseCompletedShifts clock s).shifts[i]? = some sh) := by
  constructor
  · have hswept : ∀ j, sweptAt clock (releaseCompletedShifts clock s) j := by
      refine sweepAux_swept clock (List.range s.shifts.length) s hu ?_
      intro j
      by_cases hj : j < s.shifts.length
      · exact Or.inr (List.mem_range.mpr hj)
      · push_neg at hj
        refine Or.inl ?_
        intro sh hsh
        rw [List.getElem?_eq_none hj] at hsh
        cases hsh
    exact sweepAux_of_all_swept clock _ _ hswept
  · intro i sh hi hcomp
    refine sweepAux_untouched clock _ s hu i sh hi ?_
    simp [sweepGuard, hcomp]

/-- C8 witness: the two-shift store (one completed, one in progress)
with a concrete clock. -/
theorem sweep_idempotent_witness :
    releaseCompletedShifts wClock (releaseCompletedShifts wClock w8) =
      releaseCompletedShifts wClock w8 ∧
    (∀ (i : Nat) (sh : Shift), w8.shifts[i]? = some sh → sh.status = .completed →
      (releaseCompletedShifts wClock w8).shifts[i]? = some sh) :=
  sweep_idempotent wClock w8 (by unfold uniqueShiftIds; decide)

end Hospital
